import Mathlib

/-!
Verification of the forwarder repository's URI/path normalization and
validation layer against its specification.

Strings are modelled as lists of characters (`Str`).  The Go standard
library functions used by the repository (`net/url.Parse`, `net.ParseIP`,
`strconv.Atoi`, `strings.*`) are modelled faithfully for the fragment of
inputs the repository exercises; the repository's own functions
(`ParseFilePathOrURL`, `ParseProxyURI`, `validateProxyURI`, `ParseDNSURI`,
`validateDNSURI`, `ParseUserInfo`, `validatedUserInfo`,
`ProxyConfig.Validate`, `Compose.Run`) are translated directly from the
source.
-/

set_option maxRecDepth 20000

abbrev Str : Type := List Char

/-- Embed a Lean string literal as a character list. -/
def str (s : String) : Str := s.data

/-! ### Models of Go `strings` helpers -/

/-- Models `strings.HasPrefix s pre` (argument order: pattern first). -/
def startsWithS : Str → Str → Bool
  | [], _ => true
  | _ :: _, [] => false
  | a :: as, b :: bs => a = b && startsWithS as bs

/-- Models `strings.Cut(s, string(sep))`: splits at the first occurrence of
`sep`, returning (before, after, found). -/
def strCut : Str → Char → Str × Str × Bool
  | [], _ => ([], [], false)
  | a :: as, c =>
    if a = c then ([], as, true)
    else
      let r := strCut as c
      (a :: r.1, r.2.1, r.2.2)

/-- Models `strings.Contains(s, string(c))` for a one-character pattern. -/
def strContains (s : Str) (c : Char) : Bool := (strCut s c).2.2

/-- Splits at the last occurrence of `sep` (models `strings.LastIndex`
followed by slicing): returns (before, after) without the separator. -/
def lastSplit : Str → Char → Option (Str × Str)
  | [], _ => none
  | a :: as, c =>
    match lastSplit as c with
    | some (pre, post) => some (a :: pre, post)
    | none => if a = c then some ([], as) else none

/-- The last character of a string, if any (models `strings.HasSuffix`
checks against one-character suffixes). -/
def lastChar : Str → Option Char
  | [] => none
  | [c] => some c
  | _ :: c :: cs => lastChar (c :: cs)

/-! ### Character classes -/

def isAsciiUpper (c : Char) : Bool := 65 ≤ c.toNat && c.toNat ≤ 90
def isAsciiLower (c : Char) : Bool := 97 ≤ c.toNat && c.toNat ≤ 122
def isAsciiAlpha (c : Char) : Bool := isAsciiUpper c || isAsciiLower c
def isDigitC (c : Char) : Bool := 48 ≤ c.toNat && c.toNat ≤ 57
def isAlphaNumC (c : Char) : Bool := isAsciiAlpha c || isDigitC c

/-- Models `strings.ToLower` on the ASCII-only strings produced by
`getScheme` (scheme characters are always ASCII). -/
def lowerChar (c : Char) : Char :=
  if isAsciiUpper c then Char.ofNat (c.toNat + 32) else c

def toLowerStr (s : Str) : Str := s.map lowerChar

/-- Models `stringContainsCTLByte` from `net/url`. -/
def containsCTL (s : Str) : Bool :=
  s.any (fun c => c.toNat < 32 || c.toNat = 127)

/-! ### Model of Go `net/url` data and parsing

The URL record mirrors `url.URL`; `opq` models the `Opaque` field and
`user` the `User *Userinfo` pointer.  `RawPath`/`RawFragment` bookkeeping
is not modelled (it only affects re-rendering, which the repository never
does through fields the claims mention). -/

structure UserinfoV where
  username : Str
  password : Str
  passwordSet : Bool
deriving DecidableEq, Repr

/-- Models `(*url.Userinfo).Password()`'s first result. -/
def uiPassword (ui : UserinfoV) : Str :=
  if ui.passwordSet then ui.password else []

structure URL where
  scheme : Str := []
  opq : Str := []
  user : Option UserinfoV := none
  host : Str := []
  path : Str := []
  omitHost : Bool := false
  forceQuery : Bool := false
  rawQuery : Str := []
  fragment : Str := []
deriving DecidableEq, Repr

/-- Models `getScheme` from `net/url`: `orig` is the unmodified input,
`i` the current byte index, `acc` the scheme read so far. -/
def getSchemeAux (orig : Str) : Str → Nat → Str → Except Str (Str × Str)
  | [], _, _ => .ok ([], orig)
  | c :: cs, i, acc =>
    if isAsciiAlpha c then getSchemeAux orig cs (i + 1) (acc ++ [c])
    else if isDigitC c || c = '+' || c = '-' || c = '.' then
      if i = 0 then .ok ([], orig) else getSchemeAux orig cs (i + 1) (acc ++ [c])
    else if c = ':' then
      if i = 0 then .error (str "missing protocol scheme") else .ok (acc, cs)
    else .ok ([], orig)

def getScheme (rawURL : Str) : Except Str (Str × Str) :=
  getSchemeAux rawURL rawURL 0 []

/-- Escaping modes of `net/url` relevant to parsing. -/
inductive EncMode | path | host | userPassword | fragment
deriving DecidableEq

def isHexDigitC (c : Char) : Bool :=
  isDigitC c || (97 ≤ c.toNat && c.toNat ≤ 102) || (65 ≤ c.toNat && c.toNat ≤ 70)

def unhexC (c : Char) : Nat :=
  if isDigitC c then c.toNat - 48
  else if 97 ≤ c.toNat && c.toNat ≤ 102 then c.toNat - 97 + 10
  else if 65 ≤ c.toNat && c.toNat ≤ 70 then c.toNat - 65 + 10
  else 0

/-- Characters `shouldEscape` leaves unescaped in host components:
alphanumerics, the host-specific sub-delims, and the unreserved marks. -/
def hostNoEscapeOk (c : Char) : Bool :=
  isAlphaNumC c ||
  c ∈ ['!', '$', '&', Char.ofNat 39, '(', ')', '*', '+', ',', ';', '=',
       ':', '[', ']', '<', '>', Char.ofNat 34] ||
  c ∈ ['-', '_', '.', '~']

/-- Models `unescape` from `net/url` (percent-decoding plus the host-mode
validity checks).  RFC 6874 zone handling (`encodeZone`) is not modelled:
no repository input reaches it. -/
def unescapeMode (m : EncMode) : Str → Except Str Str
  | [] => .ok []
  | c :: rest =>
    if c = '%' then
      match rest with
      | a :: b :: rs =>
        if isHexDigitC a ∧ isHexDigitC b then
          if m = EncMode.host ∧ unhexC a < 8 ∧ ¬(a = '2' ∧ b = '5') then
            .error (str "invalid URL escape")
          else
            match unescapeMode m rs with
            | .ok t => .ok (Char.ofNat (16 * unhexC a + unhexC b) :: t)
            | .error e => .error e
        else .error (str "invalid URL escape")
      | _ => .error (str "invalid URL escape")
    else if m = EncMode.host ∧ c.toNat < 128 ∧ hostNoEscapeOk c = false then
      .error (str "invalid character in host name")
    else
      match unescapeMode m rest with
      | .ok t => .ok (c :: t)
      | .error e => .error e

/-- Models `validOptionalPort` from `net/url`. -/
def validOptionalPort : Str → Bool
  | [] => true
  | ':' :: rest => rest.all isDigitC
  | _ :: _ => false

/-- Models `validUserinfo` from `net/url`. -/
def validUserinfo (s : Str) : Bool :=
  s.all fun c =>
    isAlphaNumC c ||
    c ∈ ['-', '.', '_', ':', '~', '!', '$', '&', Char.ofNat 39,
         '(', ')', '*', '+', ',', ';', '=', '%', '@']

/-- Models `parseHost` from `net/url`. -/
def parseHost (host : Str) : Except Str Str :=
  if startsWithS ['['] host then
    match lastSplit host ']' with
    | none => .error (str "missing right bracket in host")
    | some (_, colonPort) =>
      if validOptionalPort colonPort = false then
        .error (str "invalid port after host")
      else unescapeMode EncMode.host host
  else
    match lastSplit host ':' with
    | some (_, after) =>
      if validOptionalPort (':' :: after) = false then
        .error (str "invalid port after host")
      else unescapeMode EncMode.host host
    | none => unescapeMode EncMode.host host

/-- Models `parseAuthority` from `net/url`. -/
def parseAuthority (authority : Str) : Except Str (Option UserinfoV × Str) :=
  match lastSplit authority '@' with
  | none =>
    match parseHost authority with
    | .error e => .error e
    | .ok host => .ok (none, host)
  | some (userinfo, hostPart) =>
    match parseHost hostPart with
    | .error e => .error e
    | .ok host =>
      if validUserinfo userinfo = false then .error (str "invalid userinfo")
      else if strContains userinfo ':' = false then
        match unescapeMode EncMode.userPassword userinfo with
        | .error e => .error e
        | .ok u => .ok (some ⟨u, [], false⟩, host)
      else
        let c := strCut userinfo ':'
        match unescapeMode EncMode.userPassword c.1,
              unescapeMode EncMode.userPassword c.2.1 with
        | .ok u, .ok p => .ok (some ⟨u, p, true⟩, host)
        | .error e, _ => .error e
        | .ok _, .error e => .error e

/-- The authority/path tail of `parse` from `net/url`, shared by the
rootless and rooted control paths. -/
def parseAfter (scheme rawQuery : Str) (forceQuery viaRequest : Bool)
    (rest : Str) : Except Str URL :=
  if (scheme ≠ [] ∨ (viaRequest = false ∧ startsWithS (str "///") rest = false)) ∧
      startsWithS (str "//") rest = true then
    let after := rest.drop 2
    let ar :=
      match strCut after '/' with
      | (before, aft, true) => (before, '/' :: aft)
      | (_, _, false) => (after, ([] : Str))
    match parseAuthority ar.1 with
    | .error e => .error e
    | .ok uh =>
      match unescapeMode EncMode.path ar.2 with
      | .error e => .error e
      | .ok path =>
        .ok { scheme := scheme, user := uh.1, host := uh.2, path := path,
              rawQuery := rawQuery, forceQuery := forceQuery }
  else
    let omitH := scheme ≠ [] ∧ startsWithS ['/'] rest = true
    match unescapeMode EncMode.path rest with
    | .error e => .error e
    | .ok path =>
      .ok { scheme := scheme, path := path, omitHost := decide omitH,
            rawQuery := rawQuery, forceQuery := forceQuery }

/-- Models `parse(rawURL, viaRequest)` from `net/url`. -/
def parseRaw (s : Str) (viaRequest : Bool) : Except Str URL :=
  if containsCTL s then .error (str "invalid control character in URL")
  else if s = [] ∧ viaRequest = true then .error (str "empty url")
  else if s = ['*'] then .ok { path := ['*'] }
  else
    match getScheme s with
    | .error e => .error e
    | .ok sr =>
      let scheme := toLowerStr sr.1
      let qr :=
        if lastChar sr.2 = some '?' ∧ strContains (List.dropLast sr.2) '?' = false
        then (List.dropLast sr.2, ([] : Str), true)
        else
          let c := strCut sr.2 '?'
          (c.1, c.2.1, false)
      if startsWithS ['/'] qr.1 = false then
        if scheme ≠ [] then
          .ok { scheme := scheme, opq := qr.1, rawQuery := qr.2.1,
                forceQuery := qr.2.2 }
        else if viaRequest then .error (str "invalid URI for request")
        else if strContains (strCut qr.1 '/').1 ':' then
          .error (str "first path segment in URL cannot contain colon")
        else parseAfter scheme qr.2.1 qr.2.2 viaRequest qr.1
      else parseAfter scheme qr.2.1 qr.2.2 viaRequest qr.1

/-- Models `url.Parse`. -/
def urlParse (rawURL : Str) : Except Str URL :=
  let c := strCut rawURL '#'
  match parseRaw c.1 false with
  | .error e => .error e
  | .ok u =>
    if c.2.1 = [] then .ok u
    else
      match unescapeMode EncMode.fragment c.2.1 with
      | .error e => .error e
      | .ok f => .ok { u with fragment := f }

/-- Models `splitHostPort` from `net/url` (used by `Hostname`/`Port`). -/
def stripBrackets (s : Str) : Str :=
  if startsWithS ['['] s ∧ lastChar s = some ']' then (s.drop 1).dropLast else s

def splitHostPort (hostPort : Str) : Str × Str :=
  match lastSplit hostPort ':' with
  | some (h, aft) =>
    if validOptionalPort (':' :: aft) then (stripBrackets h, aft)
    else (stripBrackets hostPort, [])
  | none => (stripBrackets hostPort, [])

/-- Models `(*url.URL).Hostname()`. -/
def hostnameOf (u : URL) : Str := (splitHostPort u.host).1

/-- Models `(*url.URL).Port()`. -/
def portOf (u : URL) : Str := (splitHostPort u.host).2

/-! ### Model of Go `strconv.Atoi` and the repository's `isPort` -/

def digitsVal (ds : Str) : Nat :=
  ds.foldl (fun acc d => acc * 10 + (d.toNat - 48)) 0

/-- Models `strconv.Atoi` (base 10, 64-bit): `none` models a non-nil
error (syntax or range). -/
def atoi (s : Str) : Option Int :=
  match s with
  | [] => none
  | c :: rest =>
    let nd : Bool × Str :=
      if c = '-' then (true, rest)
      else if c = '+' then (false, rest) else (false, s)
    if nd.2 = [] then none
    else if nd.2.all isDigitC = false then none
    else
      let n := digitsVal nd.2
      if nd.1 then
        if n > 9223372036854775808 then none else some (-(n : Int))
      else
        if n > 9223372036854775807 then none else some (n : Int)

/-- `isPort` from the source: true iff the string is a valid port number. -/
def isPort (port : Str) : Bool :=
  match atoi port with
  | none => false
  | some p => 1 ≤ p && p ≤ 65535

/-! ### Model of Go `net.ParseIP` -/

/-- Models `dtoi`: reads a decimal prefix, returning (value, length read,
ok); `ok` is false when there is no digit or the value overflows the
`big` cutoff. -/
def dtoiAux : Str → Nat → Nat → Nat × Nat
  | [], n, i => (n, i)
  | c :: cs, n, i =>
    if isDigitC c then
      if n * 10 + (c.toNat - 48) ≥ 16777215 then (16777215, i + 1)
      else dtoiAux cs (n * 10 + (c.toNat - 48)) (i + 1)
    else (n, i)

def dtoi (s : Str) : Nat × Nat × Bool :=
  let r := dtoiAux s 0 0
  if r.2 = 0 then (0, 0, false)
  else if r.1 = 16777215 then (16777215, r.2, false)
  else (r.1, r.2, true)

/-- Models `parseIPv4`: four dot-separated decimal octets in 0..255, with
leading zeros rejected. -/
def parseIPv4Fields : Str → Nat → Bool
  | s, fuel =>
    match fuel with
    | 0 => s = []
    | fuel' + 1 =>
      let r := dtoi s
      if r.2.2 = false ∨ r.1 > 255 then false
      else if 1 < r.2.1 ∧ (s.headD ' ') = '0' then false
      else
        let rest := s.drop r.2.1
        if fuel' = 0 then rest = []
        else
          match rest with
          | '.' :: rs => parseIPv4Fields rs fuel'
          | _ => false

def parseIPv4 (s : Str) : Bool := parseIPv4Fields s 4

/-- Models `xtoi`: reads a hexadecimal prefix. -/
def xtoiAux : Str → Nat → Nat → Nat × Nat
  | [], n, i => (n, i)
  | c :: cs, n, i =>
    if isHexDigitC c then
      if n ≥ 16777215 then (16777215, i + 1)
      else xtoiAux cs (n * 16 + unhexC c) (i + 1)
    else (n, i)

def xtoi (s : Str) : Nat × Nat × Bool :=
  let r := xtoiAux s 0 0
  if r.2 = 0 then (0, 0, false)
  else if r.1 ≥ 16777215 then (0, r.2, false)
  else (r.1, r.2, true)

/-- Models `parseIPv6` (validity only): groups of at most 4 hex digits
separated by colons, one optional `::` ellipsis, optional embedded
IPv4 tail; `i` counts 16-bit groups already filled as bytes. -/
def parseIPv6Loop : Str → Nat → Bool → Nat → Bool
  | s, i, seenEllipsis, fuel =>
    match fuel with
    | 0 => false
    | fuel' + 1 =>
      if i ≥ 16 then s = [] ∧ (seenEllipsis = false)
      else
        let r := xtoi s
        if r.2.2 = false ∨ r.1 > 65535 then false
        else
          let rest := s.drop r.2.1
          match rest with
          | [] =>
            -- last group; address complete iff full or an ellipsis fills it
            (i + 2 = 16 ∧ seenEllipsis = false) ∨ (i + 2 < 16 ∧ seenEllipsis)
          | '.' :: _ =>
            -- embedded IPv4 tail consumes four bytes
            if i + 4 > 16 then false
            else if parseIPv4 s = false then false
            else (i + 4 = 16 ∧ seenEllipsis = false) ∨ (i + 4 < 16 ∧ seenEllipsis)
          | ':' :: ':' :: rs =>
            if seenEllipsis then false
            else
              match rs with
              | [] => i + 2 + 2 ≤ 16
              | _ => parseIPv6Loop rs (i + 2) true fuel'
          | ':' :: [] => false
          | ':' :: rs => parseIPv6Loop rs (i + 2) seenEllipsis fuel'
          | _ => false

def parseIPv6 (s : Str) : Bool :=
  if strContains s '%' then false  -- zoned addresses are rejected by ParseIP
  else
    match s with
    | ':' :: ':' :: [] => true
    | ':' :: ':' :: rest => parseIPv6Loop rest 0 true 16
    | ':' :: _ => false
    | _ => parseIPv6Loop s 0 false 16

/-- Models `net.ParseIP` as a validity predicate: scans for the first `.`
or `:` to pick the family. -/
def parseIPBool : Str → Bool
  | [] => false
  | c :: cs =>
    if c = '.' then parseIPv4 (c :: cs)
    else if c = ':' then parseIPv6 (c :: cs)
    else parseIPScan cs (c :: cs)
where
  parseIPScan : Str → Str → Bool
    | [], _ => false
    | c :: cs, orig =>
      if c = '.' then parseIPv4 orig
      else if c = ':' then parseIPv6 orig
      else parseIPScan cs orig

/-! ### The repository's credential and proxy-URI functions (`part_001`) -/

/-- `validatedUserInfo` from the source: nil is valid; otherwise username
and password must both be non-empty. -/
def validatedUserInfo : Option UserinfoV → Option Str
  | none => none
  | some ui =>
    if ui.username = [] then some (str "username cannot be empty")
    else if uiPassword ui = [] then some (str "password cannot be empty")
    else none

/-- Models `url.UserPassword`. -/
def userPassword (u p : Str) : UserinfoV := ⟨u, p, true⟩

/-- `ParseUserInfo` from the source. -/
def ParseUserInfo (val : Str) : Except Str (Option UserinfoV) :=
  if val = [] then .ok none
  else
    let c := strCut val ':'
    if c.2.2 = false then .error (str "expected username:password")
    else
      let ui := userPassword c.1 c.2.1
      match validatedUserInfo (some ui) with
      | some e => .error e
      | none => .ok (some ui)

def minHostLength : Nat := 4

/-- `validateProxyURI` from the source: nil is valid. -/
def validateProxyURI : Option URL → Option Str
  | none => none
  | some u =>
    if u.scheme ≠ str "http" ∧ u.scheme ≠ str "https" ∧
        u.scheme ≠ str "socks5" ∧ u.scheme ≠ str "socks" ∧
        u.scheme ≠ str "quic" then
      some (str "invalid scheme " ++ u.scheme)
    else if (hostnameOf u).length < minHostLength then
      some (str "invalid hostname: " ++ hostnameOf u ++ str " is too short")
    else if portOf u = [] then
      some (str "port is required")
    else if isPort (portOf u) = false then
      some (str "invalid port: " ++ portOf u)
    else
      match validatedUserInfo u.user with
      | some e => some e
      | none => none

/-- `ParseProxyURI` from the source. -/
def ParseProxyURI (val : Str) : Except Str URL :=
  match urlParse val with
  | .error e => .error e
  | .ok u =>
    match validateProxyURI (some u) with
    | some e => .error e
    | none => .ok u

/-! ### The repository's DNS-URI functions (`part_001`) -/

/-- `validateDNSURI` from the source. -/
def validateDNSURI (u : URL) : Option Str :=
  if u.scheme ≠ str "udp" ∧ u.scheme ≠ str "tcp" then
    some (str "invalid protocol: " ++ u.scheme ++
          str ", supported protocols are udp and tcp")
  else if parseIPBool (hostnameOf u) = false then
    some (str "invalid hostname: " ++ hostnameOf u ++
          str " DNS must be an IP address")
  else if isPort (portOf u) = false then
    some (str "invalid port: " ++ portOf u)
  else if u.user ≠ none then
    some (str "username and password are not allowed in DNS URI")
  else if u.path ≠ [] ∨ u.rawQuery ≠ [] ∨ u.fragment ≠ [] then
    some (str "path, query, and fragment are not allowed in DNS URI")
  else none

/-- The two defaulting steps of `ParseDNSURI`: absent scheme becomes
`udp`, absent port appends `:53` to the host. -/
def dnsNormalize (u : URL) : URL :=
  let u1 := if u.scheme = [] then { u with scheme := str "udp" } else u
  if portOf u1 = [] then { u1 with host := u1.host ++ str ":53" } else u1

/-- The tail of `ParseDNSURI` after the generic parse and the
whole-input-as-host fallback. -/
def dnsDefaultsAndValidate (u : URL) : Except Str URL :=
  let u' := dnsNormalize u
  match validateDNSURI u' with
  | some e => .error e
  | none => .ok u'

/-- `ParseDNSURI` from the source.  `*u = url.URL{Host: val}` resets every
field except `Host`. -/
def ParseDNSURI (val : Str) : Except Str URL :=
  match urlParse val with
  | .error e => .error e
  | .ok u =>
    dnsDefaultsAndValidate (if u.host = [] then { host := val } else u)

/-! ### The `ProxyConfig` aggregate (`part_001`) -/

structure ProxyConfig where
  localProxyURI : Option URL := none
  upstreamProxyURI : Option URL := none
  pacURI : Option URL := none
  pacProxiesCredentials : List Str := []
  dnsURIs : List URL := []
  proxyLocalhost : Bool := false
  siteCredentials : List Str := []
deriving DecidableEq, Repr

/-- The indexed DNS validation loop of `ProxyConfig.Validate`. -/
def validateDNSLoop : List URL → Nat → Option Str
  | [], _ => none
  | u :: us, i =>
    match validateDNSURI u with
    | some e => some (str "dns_uris[" ++ str (Nat.repr i) ++ str "]: " ++ e)
    | none => validateDNSLoop us (i + 1)

/-- `ProxyConfig.Validate` from the source. -/
def ProxyConfig.Validate (c : ProxyConfig) : Option Str :=
  match c.localProxyURI with
  | none => some (str "local_proxy_uri is required")
  | some _ =>
    match validateProxyURI c.localProxyURI with
    | some e => some (str "local_proxy_uri: " ++ e)
    | none =>
      match validateProxyURI c.upstreamProxyURI with
      | some e => some (str "upstream_proxy_uri: " ++ e)
      | none =>
        match validateProxyURI c.pacURI with
        | some e => some (str "pac_uri: " ++ e)
        | none =>
          if c.upstreamProxyURI ≠ none ∧ c.pacURI ≠ none then
            some (str "only one of upstream_proxy_uri or pac_uri can be set")
          else validateDNSLoop c.dnsURIs 0

/-! ### The file-path-or-URL parser (`part_000`) -/

/-- Anchored model of `windowsVolumeRegex` without the optional leading
slash: a single ASCII letter, `:` or `|`, then `/`, returning the drive
letter and the remainder after the match. -/
def windowsVolumeNoSlash : Str → Option (Char × Str)
  | c :: sep :: '/' :: rest =>
    if isAsciiAlpha c ∧ (sep = ':' ∨ sep = '|') then some (c, rest) else none
  | _ => none

/-- Anchored model of `windowsVolumeRegex`: the optional leading slash is
tried greedily first, then the engine backtracks to the empty
alternative. -/
def windowsVolumeMatch (s : Str) : Option (Char × Str) :=
  match s with
  | a :: rest =>
    if a = '/' then
      match windowsVolumeNoSlash rest with
      | some r => some r
      | none => windowsVolumeNoSlash s
    else windowsVolumeNoSlash s
  | [] => windowsVolumeNoSlash s

/-- Anchored model of `uncEmptyAuthorityRegex`: `file:` followed by four
or more slashes and one further character, which must not be a slash,
returning that character and the remainder after the match. -/
def uncEmptyAuthorityMatch (val : Str) : Option (Char × Str) :=
  if startsWithS (str "file:") val then
    let after := val.drop 5
    let slashes := after.takeWhile (fun c => c = '/')
    if 4 ≤ slashes.length then
      match after.dropWhile (fun c => c = '/') with
      | c :: rs => some (c, rs)
      | [] => none
    else none
  else none

/-- The backslash-normalization step of `ParseFilePathOrURL`
(`strings.ReplaceAll(val, "\\", "/")`). -/
def replaceBackslashes (val : Str) : Str :=
  val.map (fun c => if c = '\\' then '/' else c)

/-- The UNC-prefix step: a string starting with `//` gets the literal
`file:` marker prepended. -/
def uncSchemeStep (val : Str) : Str :=
  if startsWithS (str "//") val then str "file:" ++ val else val

/-- The empty-authority repair step: the segment after the slash run
becomes the authority. -/
def uncEmptyAuthorityFix (val : Str) : Str :=
  match uncEmptyAuthorityMatch val with
  | some (c, rest) => str "file://" ++ c :: rest
  | none => val

/-- The Windows drive-letter repair applied to a parsed file-scheme path. -/
def windowsVolumeFix (p : Str) : Str :=
  match windowsVolumeMatch p with
  | some (c, rest) => c :: ':' :: '/' :: rest
  | none => p

/-- `ParseFilePathOrURL` from the source (`part_000`). -/
def ParseFilePathOrURL (val : Str) : Except Str URL :=
  if val = ['-'] then .ok { scheme := str "file", path := ['-'] }
  else
    let v1 := replaceBackslashes val
    let v2 := uncSchemeStep v1
    let v3 := uncEmptyAuthorityFix v2
    match urlParse v3 with
    | .error e => .error e
    | .ok u0 =>
      let u1 := if u0.scheme = [] then { u0 with scheme := str "file" } else u0
      if u1.scheme ≠ str "file" then .ok u1
      else
        let u2 :=
          if u1.path = [] ∧ u1.opq ≠ [] then
            { u1 with path := u1.opq, opq := [] }
          else u1
        let u3 := { u2 with path := windowsVolumeFix u2.path }
        .ok { u3 with omitHost := false }

/-! ### The compose harness (`utils/compose/compose.go`)

`Compose.Run` sequences effectful stages (manifest save, `docker compose
up`, readiness wait, the callback, `docker compose down`).  The effects
themselves are external processes; the model abstracts each stage to the
error it returns (`none` = success) and additionally records the stages
invoked, in order. -/

inductive Stage | save | up | wait | callback | down
deriving DecidableEq, Repr

/-- The outcomes of the five effectful stages of a given run. -/
structure StageResults where
  saveR : Option Str
  upR : Option Str
  waitR : Option Str
  callbackR : Option Str
  downR : Option Str

/-- `Compose.Run` from the source: ordered stages with early abort,
stage-name error wrapping, a raw callback error, and the teardown skipped
when `preserve` is set.  Returns the invoked stages and the error. -/
def composeRun (r : StageResults) (preserve : Bool) :
    List Stage × Option Str :=
  match r.saveR with
  | some e => ([Stage.save], some (str "compose save: " ++ e))
  | none =>
    match r.upR with
    | some e => ([Stage.save, Stage.up], some (str "compose up: " ++ e))
    | none =>
      match r.waitR with
      | some e =>
        ([Stage.save, Stage.up, Stage.wait], some (str "compose wait: " ++ e))
      | none =>
        match r.callbackR with
        | some e =>
          ([Stage.save, Stage.up, Stage.wait, Stage.callback], some e)
        | none =>
          if preserve then
            ([Stage.save, Stage.up, Stage.wait, Stage.callback], none)
          else
            match r.downR with
            | some e =>
              ([Stage.save, Stage.up, Stage.wait, Stage.callback, Stage.down],
               some (str "compose down: " ++ e))
            | none =>
              ([Stage.save, Stage.up, Stage.wait, Stage.callback, Stage.down],
               none)

/-! ### Pointer-level model of `ProxyConfig.Clone` / `deepCopy`

`ProxyConfig.Clone` calls `deepCopy(v, c)`, which is not part of the
provided sources; the spec describes it as a full independent deep copy.
To state aliasing properties, `*url.URL` / `*url.Userinfo` pointers and
slice backing arrays are modelled as cells in an explicit heap, and
configurations hold cell addresses. -/

/-- A URL cell: the fields of `url.URL` with the `User` pointer as a heap
address. -/
structure URLCell where
  scheme : Str := []
  opq : Str := []
  user : Option Nat := none
  host : Str := []
  path : Str := []
  omitHost : Bool := false
  forceQuery : Bool := false
  rawQuery : Str := []
  fragment : Str := []
deriving DecidableEq, Repr

inductive Cell where
  | url (v : URLCell)
  | ui (v : UserinfoV)
  | strs (v : List Str)
  | urlPtrs (v : List Nat)
deriving DecidableEq, Repr

abbrev Heap : Type := List Cell

/-- Heap lookup. -/
def hGet : Heap → Nat → Option Cell
  | [], _ => none
  | c :: _, 0 => some c
  | _ :: t, n + 1 => hGet t n

/-- Heap mutation at an address. -/
def hSet : Heap → Nat → Cell → Heap
  | [], _, _ => []
  | _ :: t, 0, v => v :: t
  | c :: t, n + 1, v => c :: hSet t n v

/-- Allocation appends a fresh cell and returns its address. -/
def hAlloc (H : Heap) (c : Cell) : Heap × Nat := (H ++ [c], H.length)

def getURLCell (H : Heap) (a : Nat) : Option URLCell :=
  match hGet H a with | some (.url v) => some v | _ => none

def getUICell (H : Heap) (a : Nat) : Option UserinfoV :=
  match hGet H a with | some (.ui v) => some v | _ => none

def getStrsCell (H : Heap) (a : Nat) : Option (List Str) :=
  match hGet H a with | some (.strs v) => some v | _ => none

def getPtrsCell (H : Heap) (a : Nat) : Option (List Nat) :=
  match hGet H a with | some (.urlPtrs v) => some v | _ => none

/-- A pointer-level `ProxyConfig`: URI fields and slice fields are heap
addresses, scalar fields are inline. -/
structure ProxyConfigH where
  localProxyURI : Option Nat := none
  upstreamProxyURI : Option Nat := none
  pacURI : Option Nat := none
  pacProxiesCredentials : Option Nat := none
  dnsURIs : Option Nat := none
  proxyLocalhost : Bool := false
  siteCredentials : Option Nat := none
deriving DecidableEq, Repr

/-- A fully dereferenced URL value (pointer identity erased). -/
structure RURL where
  scheme : Str
  opq : Str
  user : Option UserinfoV
  host : Str
  path : Str
  omitHost : Bool
  forceQuery : Bool
  rawQuery : Str
  fragment : Str
deriving DecidableEq, Repr

/-- A fully dereferenced configuration value. -/
structure RConfig where
  localProxyURI : Option RURL
  upstreamProxyURI : Option RURL
  pacURI : Option RURL
  pacProxiesCredentials : Option (List Str)
  dnsURIs : Option (List RURL)
  proxyLocalhost : Bool
  siteCredentials : Option (List Str)
deriving DecidableEq, Repr

def resolveUser (H : Heap) : Option Nat → Option (Option UserinfoV)
  | none => some none
  | some a => (getUICell H a).map some

def resolveURL (H : Heap) (a : Nat) : Option RURL :=
  match getURLCell H a with
  | none => none
  | some v =>
    (resolveUser H v.user).map fun uo =>
      ⟨v.scheme, v.opq, uo, v.host, v.path, v.omitHost, v.forceQuery,
       v.rawQuery, v.fragment⟩

def resolveOptURL (H : Heap) : Option Nat → Option (Option RURL)
  | none => some none
  | some a => (resolveURL H a).map some

def resolveURLList (H : Heap) : List Nat → Option (List RURL)
  | [] => some []
  | a :: as =>
    match resolveURL H a, resolveURLList H as with
    | some r, some rs => some (r :: rs)
    | _, _ => none

def resolveStrs (H : Heap) : Option Nat → Option (Option (List Str))
  | none => some none
  | some a => (getStrsCell H a).map some

def resolveDNS (H : Heap) : Option Nat → Option (Option (List RURL))
  | none => some none
  | some a =>
    match getPtrsCell H a with
    | none => none
    | some l => (resolveURLList H l).map some

/-- Reads a whole configuration through the heap. -/
def resolveConfig (H : Heap) (c : ProxyConfigH) : Option RConfig :=
  match resolveOptURL H c.localProxyURI, resolveOptURL H c.upstreamProxyURI,
        resolveOptURL H c.pacURI, resolveStrs H c.pacProxiesCredentials,
        resolveDNS H c.dnsURIs, resolveStrs H c.siteCredentials with
  | some l, some up, some pac, some pcred, some dns, some site =>
    some ⟨l, up, pac, pcred, dns, c.proxyLocalhost, site⟩
  | _, _, _, _, _, _ => none

/-- The addresses a configuration read traverses (direct fields, the DNS
slice cell and its elements, and the `Userinfo` cells of URL cells). -/
def urlAddrs (H : Heap) (a : Nat) : List Nat :=
  a :: (match getURLCell H a with
        | some v => v.user.toList
        | none => [])

def optURLAddrs (H : Heap) : Option Nat → List Nat
  | none => []
  | some a => urlAddrs H a

def dnsAddrs (H : Heap) : Option Nat → List Nat
  | none => []
  | some a => a :: ((getPtrsCell H a).getD []).flatMap (urlAddrs H)

def strsAddrs : Option Nat → List Nat
  | none => []
  | some a => [a]

def configAddrs (H : Heap) (c : ProxyConfigH) : List Nat :=
  optURLAddrs H c.localProxyURI ++ optURLAddrs H c.upstreamProxyURI ++
  optURLAddrs H c.pacURI ++ strsAddrs c.pacProxiesCredentials ++
  dnsAddrs H c.dnsURIs ++ strsAddrs c.siteCredentials

/-- Modelled from the spec: the `Userinfo`-pointer copy performed by
`deepCopy` (the function `Clone` delegates to is not in the provided
sources).  A present credential is copied into a fresh cell. -/
def copyUser (H : Heap) : Option Nat → Heap × Option Nat
  | none => (H, none)
  | some a =>
    let r := hAlloc H (.ui ((getUICell H a).getD ⟨[], [], false⟩))
    (r.1, some r.2)

/-- Modelled from the spec: the URL copy performed by `deepCopy`: the
nested credential is copied first, then the URL cell itself, with its
user pointer redirected to the fresh credential. -/
def copyURL (H : Heap) (a : Nat) : Heap × Nat :=
  let v := (getURLCell H a).getD {}
  let r1 := copyUser H v.user
  hAlloc r1.1 (.url { v with user := r1.2 })

def copyOptURL (H : Heap) : Option Nat → Heap × Option Nat
  | none => (H, none)
  | some a =>
    let r := copyURL H a
    (r.1, some r.2)

/-- Modelled from the spec: element-by-element copy of a `[]*url.URL`
backing array; every element URL (and its credential) is copied. -/
def copyURLList (H : Heap) : List Nat → Heap × List Nat
  | [] => (H, [])
  | a :: as =>
    let r := copyURL H a
    let rs := copyURLList r.1 as
    (rs.1, r.2 :: rs.2)

/-- Modelled from the spec: copy of the DNS slice: fresh cells for every
element, then a fresh slice cell. -/
def copyDNS (H : Heap) : Option Nat → Heap × Option Nat
  | none => (H, none)
  | some a =>
    let l := (getPtrsCell H a).getD []
    let r := copyURLList H l
    let r2 := hAlloc r.1 (.urlPtrs r.2)
    (r2.1, some r2.2)

/-- Modelled from the spec: copy of a `[]string` backing array. -/
def copyStrs (H : Heap) : Option Nat → Heap × Option Nat
  | none => (H, none)
  | some a =>
    let r := hAlloc H (.strs ((getStrsCell H a).getD []))
    (r.1, some r.2)

/-- Modelled from the spec: `deepCopy` over a whole `ProxyConfig` — a
full independent deep copy of every field, every list element, and every
nested URI/credential.  `ProxyConfig.Clone` is exactly this copy into a
fresh configuration value. -/
def deepCopyConfig (H : Heap) (c : ProxyConfigH) : Heap × ProxyConfigH :=
  let r1 := copyOptURL H c.localProxyURI
  let r2 := copyOptURL r1.1 c.upstreamProxyURI
  let r3 := copyOptURL r2.1 c.pacURI
  let r4 := copyStrs r3.1 c.pacProxiesCredentials
  let r5 := copyDNS r4.1 c.dnsURIs
  let r6 := copyStrs r5.1 c.siteCredentials
  (r6.1,
   { localProxyURI := r1.2, upstreamProxyURI := r2.2, pacURI := r3.2,
     pacProxiesCredentials := r4.2, dnsURIs := r5.2,
     proxyLocalhost := c.proxyLocalhost, siteCredentials := r6.2 })

/-! ### Auxiliary predicates used by theorem statements -/

/-- The scheme whitelist of `validateProxyURI`. -/
def proxySchemes : List Str :=
  [str "http", str "https", str "socks5", str "socks", str "quic"]

/-- Characters that may appear in the hostname written in a proxy-URI
string: ASCII letters, digits, dot, hyphen. -/
def hostChar (c : Char) : Bool :=
  isAlphaNumC c || c = '.' || c = '-'

/-! ### Basic lemmas about the string helpers -/

theorem strCut_not_mem {s : Str} {sep : Char} (h : ∀ c ∈ s, c ≠ sep) :
    strCut s sep = (s, [], false) := by
  induction s with
  | nil => rfl
  | cons a as ih =>
    have ha : a ≠ sep := h a (by simp)
    simp [strCut, ha, ih (fun c hc => h c (by simp [hc]))]

theorem strCut_append {u p : Str} {sep : Char} (h : ∀ c ∈ u, c ≠ sep) :
    strCut (u ++ sep :: p) sep = (u, p, true) := by
  induction u with
  | nil => simp [strCut]
  | cons a as ih =>
    have ha : a ≠ sep := h a (by simp)
    simp [strCut, ha, ih (fun c hc => h c (by simp [hc]))]

theorem lastSplit_not_mem {s : Str} {sep : Char} (h : ∀ c ∈ s, c ≠ sep) :
    lastSplit s sep = none := by
  induction s with
  | nil => rfl
  | cons a as ih =>
    have ha : a ≠ sep := h a (by simp)
    simp [lastSplit, ha, ih (fun c hc => h c (by simp [hc]))]

theorem lastSplit_append {x p : Str} {sep : Char} (hp : ∀ c ∈ p, c ≠ sep) :
    lastSplit (x ++ sep :: p) sep = some (x, p) := by
  induction x with
  | nil => simp [lastSplit, lastSplit_not_mem hp]
  | cons a as ih => simp [lastSplit, ih]

theorem lastChar_append {x p : Str} (hp : p ≠ []) :
    lastChar (x ++ p) = lastChar p := by
  induction x with
  | nil => rfl
  | cons a as ih =>
    obtain ⟨b, bs, hbs⟩ : ∃ b bs, as ++ p = b :: bs := by
      cases h : as ++ p with
      | nil => exact absurd (List.append_eq_nil.mp h).2 hp
      | cons b bs => exact ⟨b, bs, rfl⟩
    calc lastChar (a :: as ++ p) = lastChar (a :: (as ++ p)) := rfl
    _ = lastChar (as ++ p) := by rw [hbs]; rfl
    _ = lastChar p := ih

theorem lastChar_mem {s : Str} {c : Char} : lastChar s = some c → c ∈ s := by
  induction s with
  | nil => intro h; cases h
  | cons a as ih =>
    cases as with
    | nil => intro h; simp [lastChar] at h; simp [h]
    | cons b bs => intro h; exact List.mem_cons_of_mem a (ih h)

theorem startsWithS_self_append (x y : Str) : startsWithS x (x ++ y) = true := by
  induction x with
  | nil => rfl
  | cons a as ih => simp [startsWithS, ih]

/-! ### Claim C6: ParseUserInfo -/

/-- Claim C6: `ParseUserInfo` returns absent (no credential) and no error
for the empty input; for any non-empty input it splits at the first colon
into username and password, fails when no colon is present, fails when
either resulting part is empty, and otherwise returns that
username/password pair. -/
theorem parseUserInfo_spec :
    ParseUserInfo [] = .ok none ∧
    (∀ val : Str, val ≠ [] → (∀ c ∈ val, c ≠ ':') →
      ParseUserInfo val = .error (str "expected username:password")) ∧
    (∀ u p : Str, (∀ c ∈ u, c ≠ ':') →
      ((u = [] ∨ p = []) → ∃ e, ParseUserInfo (u ++ ':' :: p) = .error e) ∧
      (u ≠ [] → p ≠ [] →
        ParseUserInfo (u ++ ':' :: p) = .ok (some (userPassword u p)))) := by
  refine ⟨rfl, ?_, ?_⟩
  · intro val hne hnc
    simp [ParseUserInfo, hne, strCut_not_mem hnc]
  · intro u p hu
    have hcut := strCut_append (p := p) hu
    constructor
    · intro h
      by_cases hu0 : u = []
      · subst hu0
        have hcut' : strCut (':' :: p) ':' = ([], p, true) := by simpa using hcut
        exact ⟨str "username cannot be empty", by
          simp [ParseUserInfo, hcut', validatedUserInfo, userPassword]⟩
      · have hp0 : p = [] := h.resolve_left hu0
        subst hp0
        have hcut' : strCut (u ++ [':']) ':' = (u, [], true) := by simpa using hcut
        exact ⟨str "password cannot be empty", by
          simp [ParseUserInfo, hcut', validatedUserInfo, userPassword,
            uiPassword, hu0]⟩
    · intro hu0 hp0
      simp [ParseUserInfo, hcut, validatedUserInfo, userPassword,
        uiPassword, hu0, hp0]

theorem parseUserInfo_spec_witness :
    ParseUserInfo (str "alice" ++ ':' :: str "secret")
      = .ok (some (userPassword (str "alice") (str "secret"))) :=
  (parseUserInfo_spec.2.2 (str "alice") (str "secret")
    (by decide)).2 (by decide) (by decide)

/-! ### Claim C5: mutual exclusion of upstream proxy and PAC -/

/-- Claim C5: `ProxyConfig.Validate()` returns an error for every
configuration in which both the upstream proxy URI and the PAC URI are
set. -/
theorem proxyConfig_validate_exclusive (c : ProxyConfig)
    (hup : c.upstreamProxyURI ≠ none) (hpac : c.pacURI ≠ none) :
    (ProxyConfig.Validate c).isSome = true := by
  unfold ProxyConfig.Validate
  cases hl : c.localProxyURI with
  | none => simp
  | some l =>
    cases h1 : validateProxyURI (some l) with
    | some e => simp
    | none =>
      cases h2 : validateProxyURI c.upstreamProxyURI with
      | some e => simp
      | none =>
        cases h3 : validateProxyURI c.pacURI with
        | some e => simp
        | none => simp [hup, hpac]

theorem proxyConfig_validate_exclusive_witness :
    (ProxyConfig.Validate
      { upstreamProxyURI := some {}, pacURI := some {} }).isSome = true :=
  proxyConfig_validate_exclusive _ (by decide) (by decide)

/-! ### Claim C9: the compose harness -/

/-- Claim C9: `Compose.Run(callback, preserve)` executes its stages in
the order save, up, wait, callback, down; the first failing stage aborts
all remaining stages and `Run` returns that stage's error wrapped with
the stage name, a callback failure is returned unwrapped, and the down
stage is skipped exactly when `preserve` is true. -/
theorem composeRun_spec (r : StageResults) (preserve : Bool) :
    (∀ e, r.saveR = some e →
      composeRun r preserve =
        ([Stage.save], some (str "compose save: " ++ e))) ∧
    (r.saveR = none → ∀ e, r.upR = some e →
      composeRun r preserve =
        ([Stage.save, Stage.up], some (str "compose up: " ++ e))) ∧
    (r.saveR = none → r.upR = none → ∀ e, r.waitR = some e →
      composeRun r preserve =
        ([Stage.save, Stage.up, Stage.wait],
         some (str "compose wait: " ++ e))) ∧
    (r.saveR = none → r.upR = none → r.waitR = none →
      ∀ e, r.callbackR = some e →
      composeRun r preserve =
        ([Stage.save, Stage.up, Stage.wait, Stage.callback], some e)) ∧
    (r.saveR = none → r.upR = none → r.waitR = none → r.callbackR = none →
      (preserve = true → composeRun r preserve =
        ([Stage.save, Stage.up, Stage.wait, Stage.callback], none)) ∧
      (preserve = false → ∀ e, r.downR = some e →
        composeRun r preserve =
          ([Stage.save, Stage.up, Stage.wait, Stage.callback, Stage.down],
           some (str "compose down: " ++ e))) ∧
      (preserve = false → r.downR = none →
        composeRun r preserve =
          ([Stage.save, Stage.up, Stage.wait, Stage.callback, Stage.down],
           none)) ∧
      (Stage.down ∈ (composeRun r preserve).1 ↔ preserve = false)) := by
  refine ⟨?_, ?_, ?_, ?_, ?_⟩
  · intro e h; simp [composeRun, h]
  · intro h0 e h; simp [composeRun, h0, h]
  · intro h0 h1 e h; simp [composeRun, h0, h1, h]
  · intro h0 h1 h2 e h; simp [composeRun, h0, h1, h2, h]
  · intro h0 h1 h2 h3
    refine ⟨?_, ?_, ?_, ?_⟩
    · intro hp; simp [composeRun, h0, h1, h2, h3, hp]
    · intro hp e h; simp [composeRun, h0, h1, h2, h3, hp, h]
    · intro hp h; simp [composeRun, h0, h1, h2, h3, hp, h]
    · cases hp : preserve with
      | true => simp [composeRun, h0, h1, h2, h3]
      | false =>
        cases h4 : r.downR with
        | none => simp [composeRun, h0, h1, h2, h3, h4]
        | some e => simp [composeRun, h0, h1, h2, h3, h4]

theorem composeRun_spec_witness :
    composeRun ⟨none, none, none, none, none⟩ false =
      ([Stage.save, Stage.up, Stage.wait, Stage.callback, Stage.down],
       none) :=
  ((composeRun_spec ⟨none, none, none, none, none⟩ false).2.2.2.2
    rfl rfl rfl rfl).2.2.1 rfl rfl

/-! ### Claim C10: field-error precedence in ProxyConfig.Validate -/

theorem headNeAux {x y : Str} {c d : Char} (hx : x.head? = some c)
    (hy : y.head? = some d) (hcd : c ≠ d) : x ≠ y := by
  intro h; rw [h, hy] at hx; exact hcd (Option.some.inj hx).symm

theorem validateDNSLoop_head {l : List URL} {i : Nat} {m : Str}
    (h : validateDNSLoop l i = some m) : m.head? = some 'd' := by
  induction l generalizing i with
  | nil => cases h
  | cons u us ih =>
    simp only [validateDNSLoop] at h
    cases hv : validateDNSURI u with
    | some e => rw [hv] at h; cases h; rfl
    | none => rw [hv] at h; exact ih h

/-- Claim C10 counterexample: in a configuration where both
`UpstreamProxyURI` and `PACURI` are set and individually invalid but
`LocalProxyURI` is absent, the returned error is the local-proxy error,
which names neither `upstream_proxy_uri` nor `pac_uri`. -/
theorem proxyConfig_validate_field_cx :
    ProxyConfig.Validate { upstreamProxyURI := some {}, pacURI := some {} }
        = some (str "local_proxy_uri is required") ∧
    validateProxyURI (some ({} : URL)) ≠ none ∧
    startsWithS (str "upstream_proxy_uri")
        (str "local_proxy_uri is required") = false ∧
    startsWithS (str "pac_uri") (str "local_proxy_uri is required") = false :=
  ⟨rfl, by decide, by decide, by decide⟩

/-- Claim C10 (amended): provided `LocalProxyURI` is present and
individually valid, when both `UpstreamProxyURI` and `PACURI` are set but
one of them is individually invalid the returned error is wrapped with
that field's name (`upstream_proxy_uri` taking precedence), and the "only
one of upstream_proxy_uri or pac_uri can be set" error is returned only
when both URIs are individually valid (and both set). -/
theorem proxyConfig_validate_field_precedence :
    (∀ c : ProxyConfig, ∀ l, c.localProxyURI = some l →
      validateProxyURI (some l) = none →
      c.upstreamProxyURI ≠ none → c.pacURI ≠ none →
      (∀ e, validateProxyURI c.upstreamProxyURI = some e →
        ProxyConfig.Validate c = some (str "upstream_proxy_uri: " ++ e)) ∧
      (validateProxyURI c.upstreamProxyURI = none →
        ∀ e, validateProxyURI c.pacURI = some e →
        ProxyConfig.Validate c = some (str "pac_uri: " ++ e))) ∧
    (∀ c : ProxyConfig,
      ProxyConfig.Validate c =
        some (str "only one of upstream_proxy_uri or pac_uri can be set") →
      validateProxyURI c.upstreamProxyURI = none ∧
      validateProxyURI c.pacURI = none ∧
      c.upstreamProxyURI ≠ none ∧ c.pacURI ≠ none) := by
  constructor
  · intro c l hl hlv hup hpac
    constructor
    · intro e h
      unfold ProxyConfig.Validate
      rw [hl, hlv, h]
    · intro h2 e h3
      unfold ProxyConfig.Validate
      rw [hl, hlv, h2, h3]
  · intro c h
    cases hl : c.localProxyURI with
    | none =>
      have hv : ProxyConfig.Validate c =
          some (str "local_proxy_uri is required") := by
        simp [ProxyConfig.Validate, hl]
      rw [hv] at h
      exact absurd (Option.some.inj h) (by decide)
    | some l =>
      cases h1 : validateProxyURI (some l) with
      | some e =>
        have hv : ProxyConfig.Validate c =
            some (str "local_proxy_uri: " ++ e) := by
          simp [ProxyConfig.Validate, hl, h1]
        rw [hv] at h
        exact absurd (Option.some.inj h)
          (headNeAux (by rfl) (by rfl) (by decide))
      | none =>
        cases h2 : validateProxyURI c.upstreamProxyURI with
        | some e =>
          have hv : ProxyConfig.Validate c =
              some (str "upstream_proxy_uri: " ++ e) := by
            simp [ProxyConfig.Validate, hl, h1, h2]
          rw [hv] at h
          exact absurd (Option.some.inj h)
            (headNeAux (by rfl) (by rfl) (by decide))
        | none =>
          cases h3 : validateProxyURI c.pacURI with
          | some e =>
            have hv : ProxyConfig.Validate c =
                some (str "pac_uri: " ++ e) := by
              simp [ProxyConfig.Validate, hl, h1, h2, h3]
            rw [hv] at h
            exact absurd (Option.some.inj h)
              (headNeAux (by rfl) (by rfl) (by decide))
          | none =>
            by_cases hb : c.upstreamProxyURI ≠ none ∧ c.pacURI ≠ none
            · exact ⟨rfl, rfl, hb.1, hb.2⟩
            · have hv : ProxyConfig.Validate c =
                  validateDNSLoop c.dnsURIs 0 := by
                simp [ProxyConfig.Validate, hl, h1, h2, h3, hb]
              rw [hv] at h
              exact absurd (validateDNSLoop_head h) (by decide)

theorem proxyConfig_validate_field_precedence_witness :
    ProxyConfig.Validate
      { localProxyURI := some
          { scheme := str "http", host := str "abcd:8080" },
        upstreamProxyURI := some {}, pacURI := some {} } =
    some (str "upstream_proxy_uri: " ++ (str "invalid scheme " ++ [])) :=
  ((proxyConfig_validate_field_precedence.1 _ _ rfl (by decide)
    (by decide) (by decide)).1 _ (by decide))

/-! ### Claim C3: validateProxyURI characterization -/

/-- Claim C3: `validateProxyURI` returns no error for an absent URI; for
a present URI it returns an error if and only if the scheme is outside
{http, https, socks, socks5, quic}, or the hostname is shorter than 4
characters, or the port is missing or not a valid port number in
[1,65535], or a credential is present with an empty username or an empty
password. -/
theorem validateProxyURI_spec :
    validateProxyURI none = none ∧
    ∀ u : URL, (validateProxyURI (some u)).isSome = true ↔
      (u.scheme ∉ proxySchemes ∨
       (hostnameOf u).length < minHostLength ∨
       portOf u = [] ∨ isPort (portOf u) = false ∨
       (∃ ui, u.user = some ui ∧
         (ui.username = [] ∨ uiPassword ui = []))) := by
  refine ⟨rfl, fun u => ?_⟩
  have hmem : u.scheme ∉ proxySchemes ↔
      (u.scheme ≠ str "http" ∧ u.scheme ≠ str "https" ∧
       u.scheme ≠ str "socks5" ∧ u.scheme ≠ str "socks" ∧
       u.scheme ≠ str "quic") := by
    simp [proxySchemes]
  by_cases h1 : u.scheme ≠ str "http" ∧ u.scheme ≠ str "https" ∧
      u.scheme ≠ str "socks5" ∧ u.scheme ≠ str "socks" ∧
      u.scheme ≠ str "quic"
  · simp [validateProxyURI, h1, hmem.mpr h1]
  · by_cases h2 : (hostnameOf u).length < minHostLength
    · simp [validateProxyURI, h1, h2]
    · by_cases h3 : portOf u = []
      · simp [validateProxyURI, h1, h2, h3]
      · by_cases h4 : isPort (portOf u) = false
        · simp [validateProxyURI, h1, h2, h3, h4]
        · have h4' : isPort (portOf u) = true := by
            cases hi : isPort (portOf u)
            · exact absurd hi h4
            · rfl
          have hin : u.scheme ∈ proxySchemes := by
            by_contra hc; exact h1 (hmem.mp hc)
          cases hu : u.user with
          | none =>
            simp [validateProxyURI, h1, h2, h3, h4', hu,
              validatedUserInfo, hin]
          | some ui =>
            by_cases h5 : ui.username = []
            · simp [validateProxyURI, h1, h2, h3, h4', hu,
                validatedUserInfo, h5]
            · by_cases h6 : uiPassword ui = []
              · simp [validateProxyURI, h1, h2, h3, h4', hu,
                  validatedUserInfo, h5, h6]
              · simp [validateProxyURI, h1, h2, h3, h4', hu,
                  validatedUserInfo, h5, h6, hin]

/-! ### Claim C4: ParseDNSURI -/

theorem validateDNSURI_none_iff {w : URL} (h : validateDNSURI w = none) :
    (w.scheme = str "udp" ∨ w.scheme = str "tcp") ∧
    parseIPBool (hostnameOf w) = true ∧ isPort (portOf w) = true ∧
    w.user = none ∧ w.path = [] ∧ w.rawQuery = [] ∧ w.fragment = [] := by
  unfold validateDNSURI at h
  split_ifs at h with c1 c2 c3 c4 c5
  push_neg at c1 c4 c5
  refine ⟨?_, ?_, ?_, c4, c5.1, c5.2.1, c5.2.2⟩
  · by_cases hu : w.scheme = str "udp"
    · exact Or.inl hu
    · exact Or.inr (c1 hu)
  · cases hip : parseIPBool (hostnameOf w)
    · exact absurd hip c2
    · rfl
  · cases hip : isPort (portOf w)
    · exact absurd hip c3
    · rfl

theorem portOf_host_append53 (h : Str) :
    (splitHostPort (h ++ str ":53")).2 = str "53" := by
  have he : h ++ str ":53" = h ++ ':' :: str "53" := rfl
  have hv : validOptionalPort (':' :: str "53") = true := by decide
  rw [he, splitHostPort, lastSplit_append (by decide)]
  simp [hv]

/-- Claim C4: `ParseDNSURI` treats the entire input as the host when the
generic parse captures no host, defaults an absent scheme to udp and an
absent port to 53, and succeeds only when the scheme is udp or tcp, the
host is a literal IP address, the port is in [1,65535], and there is no
credential, path, query, or fragment; in particular
`ParseDNSURI("1.1.1.1")` returns scheme udp, host 1.1.1.1, port 53, and
`ParseDNSURI("dns.example.com")` fails. -/
theorem parseDNSURI_spec :
    (∀ val u, urlParse val = .ok u → u.host = [] →
      ParseDNSURI val = dnsDefaultsAndValidate { host := val }) ∧
    (∀ u : URL,
      (u.scheme = [] → (dnsNormalize u).scheme = str "udp") ∧
      (portOf u = [] → portOf (dnsNormalize u) = str "53")) ∧
    (∀ val u, ParseDNSURI val = .ok u →
      (u.scheme = str "udp" ∨ u.scheme = str "tcp") ∧
      parseIPBool (hostnameOf u) = true ∧ isPort (portOf u) = true ∧
      u.user = none ∧ u.path = [] ∧ u.rawQuery = [] ∧ u.fragment = []) ∧
    (∃ u, ParseDNSURI (str "1.1.1.1") = .ok u ∧ u.scheme = str "udp" ∧
      hostnameOf u = str "1.1.1.1" ∧ portOf u = str "53") ∧
    (∃ e, ParseDNSURI (str "dns.example.com") = .error e) := by
  refine ⟨?_, ?_, ?_, ?_, ?_⟩
  · intro val u hp hhost
    unfold ParseDNSURI
    rw [hp]
    simp [hhost]
  · intro u
    constructor
    · intro hs
      by_cases hport : portOf { u with scheme := str "udp" } = []
      · simp [dnsNormalize, hs, hport]
      · simp [dnsNormalize, hs, hport]
    · intro hport
      by_cases hs : u.scheme = []
      · have h1 : portOf { u with scheme := str "udp" } = [] := hport
        have h2 : dnsNormalize u =
            { u with scheme := str "udp", host := u.host ++ str ":53" } := by
          simp [dnsNormalize, hs, h1]
        rw [h2]
        exact portOf_host_append53 u.host
      · have h2 : dnsNormalize u = { u with host := u.host ++ str ":53" } := by
          simp [dnsNormalize, hs, hport]
        rw [h2]
        exact portOf_host_append53 u.host
  · intro val u h
    unfold ParseDNSURI at h
    cases hp : urlParse val with
    | error e => rw [hp] at h; cases h
    | ok u0 =>
      rw [hp] at h
      unfold dnsDefaultsAndValidate at h
      dsimp only at h
      cases hv : validateDNSURI
          (dnsNormalize (if u0.host = [] then { host := val } else u0)) with
      | some e => rw [hv] at h; cases h
      | none =>
        rw [hv] at h
        cases h
        exact validateDNSURI_none_iff hv
  · exact ⟨{ scheme := str "udp", host := str "1.1.1.1:53" }, rfl, rfl, rfl, rfl⟩
  · exact ⟨_, rfl⟩

theorem parseDNSURI_spec_witness :
    ParseDNSURI (str "1.1.1.1") =
      dnsDefaultsAndValidate { host := str "1.1.1.1" } ∧
    (dnsNormalize ({ host := str "1.1.1.1" } : URL)).scheme = str "udp" ∧
    portOf (dnsNormalize ({ host := str "1.1.1.1" } : URL)) = str "53" ∧
    (str "udp" = str "udp" ∨ str "udp" = str "tcp") :=
  ⟨parseDNSURI_spec.1 (str "1.1.1.1") _ rfl rfl,
   (parseDNSURI_spec.2.1 { host := str "1.1.1.1" }).1 rfl,
   (parseDNSURI_spec.2.1 { host := str "1.1.1.1" }).2 rfl,
   (parseDNSURI_spec.2.2.1 (str "1.1.1.1")
     { scheme := str "udp", host := str "1.1.1.1:53" } rfl).1⟩

/-! ### Claims C8 and C1: ParseFilePathOrURL -/

theorem takeWhile_replicate_stop {n : Nat} {c : Char} {l : Str}
    (hc : c ≠ '/') :
    (List.replicate n '/' ++ c :: l).takeWhile (fun x => x = '/')
        = List.replicate n '/' ∧
    (List.replicate n '/' ++ c :: l).dropWhile (fun x => x = '/')
        = c :: l := by
  induction n with
  | zero => simp [List.takeWhile, List.dropWhile, hc]
  | succ n ih =>
    simp [List.replicate_succ, List.takeWhile, List.dropWhile, ih]

/-- Claim C8: a string starting with `//` is prefixed with the literal
`file:` marker before generic parsing; a string matching `file:` followed
by four or more slashes and then a non-slash character is rewritten so
the segment immediately after the slash run becomes the authority; hence
`ParseFilePathOrURL("//server/share/file")` yields scheme "file", host
"server", path "/share/file". -/
theorem parseFilePathOrURL_unc :
    (∀ val, startsWithS (str "//") val = true →
      uncSchemeStep val = str "file:" ++ val) ∧
    (∀ (n : Nat) (c : Char) (rest : Str), 4 ≤ n → c ≠ '/' →
      uncEmptyAuthorityFix
          (str "file:" ++ (List.replicate n '/' ++ c :: rest))
        = str "file://" ++ c :: rest) ∧
    ParseFilePathOrURL (str "//server/share/file") =
      .ok { scheme := str "file", host := str "server",
            path := str "/share/file" } := by
  refine ⟨?_, ?_, rfl⟩
  · intro val h; simp [uncSchemeStep, h]
  · intro n c rest hn hc
    have hst : startsWithS (str "file:")
        (str "file:" ++ (List.replicate n '/' ++ c :: rest)) = true :=
      startsWithS_self_append _ _
    have hdrop : (str "file:" ++ (List.replicate n '/' ++ c :: rest)).drop 5
        = List.replicate n '/' ++ c :: rest := rfl
    have htw := takeWhile_replicate_stop (n := n) (l := rest) hc
    simp only [uncEmptyAuthorityFix, uncEmptyAuthorityMatch, hst, if_true,
      hdrop, htw.1, htw.2, List.length_replicate]
    rw [if_pos hn]

theorem parseFilePathOrURL_unc_witness :
    uncSchemeStep (str "//server/share") = str "file:" ++ str "//server/share" ∧
    uncEmptyAuthorityFix
        (str "file:" ++ (List.replicate 4 '/' ++ 's' :: str "erver/share"))
      = str "file://" ++ 's' :: str "erver/share" :=
  ⟨parseFilePathOrURL_unc.1 (str "//server/share") (by decide),
   parseFilePathOrURL_unc.2.1 4 's' (str "erver/share") (by decide) (by decide)⟩

/-- Claim C1 counterexample: `ParseFilePathOrURL("C:\foo\bar")` does not
return scheme "file" with path "C:/foo/bar": the generic parse consumes
the single-letter drive prefix as the URI scheme, so the result has
scheme "c" and path "/foo/bar". -/
theorem parseFilePathOrURL_windows_cx :
    ParseFilePathOrURL (str "C:\\foo\\bar") =
      .ok { scheme := str "c", path := str "/foo/bar", omitHost := true } ∧
    str "c" ≠ str "file" ∧ str "/foo/bar" ≠ str "C:/foo/bar" :=
  ⟨rfl, by decide, by decide⟩

theorem alpha_ne_slash {c : Char} (hc : isAsciiAlpha c = true) : c ≠ '/' := by
  intro h; subst h; simp [isAsciiAlpha, isAsciiUpper, isAsciiLower] at hc

/-- Claim C1 (amended): for the input "C:\foo\bar", `ParseFilePathOrURL`
succeeds with scheme "c" and path "/foo/bar": every backslash is replaced
by a forward slash and the generic parse then consumes the single-letter
drive prefix as the URI scheme.  The drive-letter repair applies to the
parsed path of file-scheme results: a path consisting of an optional
leading slash, a single ASCII letter, a colon-or-pipe separator, then a
slash is rewritten to the canonical drive-letter form C:/..., e.g.
`ParseFilePathOrURL("/C:/foo/bar")` yields scheme "file" and path
"C:/foo/bar". -/
theorem parseFilePathOrURL_windows_amended :
    ParseFilePathOrURL (str "C:\\foo\\bar") =
      .ok { scheme := str "c", path := str "/foo/bar", omitHost := true } ∧
    replaceBackslashes (str "C:\\foo\\bar") = str "C:/foo/bar" ∧
    (∀ (c sep : Char) (rest : Str),
      isAsciiAlpha c = true → (sep = ':' ∨ sep = '|') →
      windowsVolumeFix ('/' :: c :: sep :: '/' :: rest)
          = c :: ':' :: '/' :: rest ∧
      windowsVolumeFix (c :: sep :: '/' :: rest)
          = c :: ':' :: '/' :: rest) ∧
    ParseFilePathOrURL (str "/C:/foo/bar") =
      .ok { scheme := str "file", path := str "C:/foo/bar" } := by
  refine ⟨rfl, rfl, ?_, rfl⟩
  intro c sep rest hc hsep
  have hns : windowsVolumeNoSlash (c :: sep :: '/' :: rest) = some (c, rest) := by
    simp [windowsVolumeNoSlash, hc, hsep]
  constructor
  · simp [windowsVolumeFix, windowsVolumeMatch, hns]
  · simp [windowsVolumeFix, windowsVolumeMatch, alpha_ne_slash hc, hns]

theorem parseFilePathOrURL_windows_amended_witness :
    windowsVolumeFix ('/' :: 'C' :: ':' :: '/' :: str "foo/bar")
        = 'C' :: ':' :: '/' :: str "foo/bar" ∧
    windowsVolumeFix ('C' :: '|' :: '/' :: str "foo")
        = 'C' :: ':' :: '/' :: str "foo" :=
  ⟨(parseFilePathOrURL_windows_amended.2.2.1 'C' ':' (str "foo/bar")
      (by decide) (Or.inl rfl)).1,
   (parseFilePathOrURL_windows_amended.2.2.1 'C' '|' (str "foo")
      (by decide) (Or.inr rfl)).2⟩

/-! ### Claim C2: proxy-URI round-trip -/

theorem hostChar_props {c : Char} (hc : hostChar c = true) :
    c ≠ '#' ∧ c ≠ '?' ∧ c ≠ '/' ∧ c ≠ '@' ∧ c ≠ ':' ∧ c ≠ '[' ∧ c ≠ '%' ∧
    hostNoEscapeOk c = true ∧ 32 ≤ c.toNat ∧ c.toNat ≠ 127 := by
  have hcases : isAlphaNumC c = true ∨ c = '.' ∨ c = '-' := by
    simpa [hostChar, decide_eq_true_eq, or_assoc] using hc
  refine ⟨fun he => by subst he; exact absurd hc (by decide),
          fun he => by subst he; exact absurd hc (by decide),
          fun he => by subst he; exact absurd hc (by decide),
          fun he => by subst he; exact absurd hc (by decide),
          fun he => by subst he; exact absurd hc (by decide),
          fun he => by subst he; exact absurd hc (by decide),
          fun he => by subst he; exact absurd hc (by decide),
          ?_, ?_, ?_⟩
  · rcases hcases with hA | h1 | h1
    · simp [hostNoEscapeOk, hA]
    · subst h1; decide
    · subst h1; decide
  · rcases hcases with hA | h1 | h1
    · simp [isAlphaNumC, isAsciiAlpha, isAsciiUpper, isAsciiLower, isDigitC,
        Bool.or_eq_true, Bool.and_eq_true, decide_eq_true_eq] at hA
      omega
    · subst h1; decide
    · subst h1; decide
  · rcases hcases with hA | h1 | h1
    · simp [isAlphaNumC, isAsciiAlpha, isAsciiUpper, isAsciiLower, isDigitC,
        Bool.or_eq_true, Bool.and_eq_true, decide_eq_true_eq] at hA
      omega
    · subst h1; decide
    · subst h1; decide

theorem digit_hostChar {c : Char} (hd : isDigitC c = true) :
    hostChar c = true := by
  simp [hostChar, isAlphaNumC, hd]

theorem alnum_hostChar {c : Char} (hd : isAlphaNumC c = true) :
    hostChar c = true := by
  simp [hostChar, hd]

theorem unescape_host_clean {s : Str}
    (h : ∀ c ∈ s, c ≠ '%' ∧ hostNoEscapeOk c = true) :
    unescapeMode EncMode.host s = .ok s := by
  induction s with
  | nil => rfl
  | cons c rest ih =>
    have hc := h c (by simp)
    have hr := ih (fun d hd => h d (by simp [hd]))
    unfold unescapeMode
    simp [hc.1, hc.2, hr]

theorem lastChar_isSome {s : Str} (h : s ≠ []) :
    ∃ d, lastChar s = some d := by
  induction s with
  | nil => exact absurd rfl h
  | cons a as ih =>
    cases as with
    | nil => exact ⟨a, rfl⟩
    | cons b bs => exact ih (by simp)

theorem splitHostPort_hostport {h p : Str}
    (hbr : startsWithS ['['] h = false)
    (hp : ∀ c ∈ p, isDigitC c = true) :
    splitHostPort (h ++ ':' :: p) = (h, p) := by
  have hnc : ∀ c ∈ p, c ≠ ':' := fun c hc he => by
    subst he; exact absurd (hp _ hc) (by decide)
  have hvp : validOptionalPort (':' :: p) = true := by
    simpa [validOptionalPort, List.all_eq_true] using hp
  have hsb : stripBrackets h = h := by
    rw [stripBrackets, if_neg]
    intro hab
    rw [hab.1] at hbr
    cases hbr
  rw [splitHostPort, lastSplit_append hnc]
  simp [hvp, hsb]

theorem isPort_of_atoi {p : Str} {v : Int} (hv : atoi p = some v)
    (h1 : 1 ≤ v) (h2 : v ≤ 65535) : isPort p = true := by
  simp [isPort, hv, h1, h2]

theorem atoi_ne_nil {p : Str} {v : Int} (hv : atoi p = some v) : p ≠ [] := by
  intro h; subst h; cases hv

theorem getSchemeAux_alnum {sch r : Str}
    (hs : ∀ c ∈ sch, isAlphaNumC c = true) :
    ∀ (orig acc : Str) (i : Nat), i ≠ 0 →
    getSchemeAux orig (sch ++ ':' :: r) i acc = .ok (acc ++ sch, r) := by
  induction sch with
  | nil =>
    intro orig acc i hi
    have e1 : isAsciiAlpha ':' = false := by decide
    simp [getSchemeAux, e1, hi]
    exact fun h => absurd h (by decide)
  | cons c cs ih =>
    intro orig acc i hi
    have hc := hs c (by simp)
    by_cases ha : isAsciiAlpha c = true
    · have := ih (fun d hd => hs d (by simp [hd])) orig (acc ++ [c]) (i + 1)
        (by omega)
      simp [getSchemeAux, ha, this]
    · have ha' : isAsciiAlpha c = false := by
        cases hq : isAsciiAlpha c
        · rfl
        · exact absurd hq ha
      have hd : isDigitC c = true := by
        rcases Bool.or_eq_true_iff.mp
          (by simpa [isAlphaNumC] using hc) with h' | h'
        · exact absurd h' ha
        · exact h'
      have := ih (fun d hd => hs d (by simp [hd])) orig (acc ++ [c]) (i + 1)
        (by omega)
      simp [getSchemeAux, ha', hd, hi, this]

theorem getScheme_eq {c₀ : Char} {sch' rest : Str}
    (h₀ : isAsciiAlpha c₀ = true)
    (hs : ∀ c ∈ sch', isAlphaNumC c = true) :
    getScheme ((c₀ :: sch') ++ ':' :: rest) = .ok (c₀ :: sch', rest) := by
  have hstep := getSchemeAux_alnum (r := rest) hs
    ((c₀ :: sch') ++ ':' :: rest) [c₀] 1 (by omega)
  show getSchemeAux _ (c₀ :: (sch' ++ ':' :: rest)) 0 [] = _
  simp only [getSchemeAux, h₀, if_true]
  simpa using hstep

theorem startsWithS_bracket_false {h rest : Str} (hh0 : h ≠ [])
    (hh : ∀ c ∈ h, hostChar c = true) :
    startsWithS ['['] (h ++ rest) = false := by
  cases h with
  | nil => exact absurd rfl hh0
  | cons a as =>
    have hne : ('[' : Char) ≠ a :=
      Ne.symm (hostChar_props (hh a (by simp))).2.2.2.2.2.1
    simp [startsWithS, hne]

theorem urlParse_proxy {c₀ : Char} {sch' h p : Str}
    (ha : isAsciiAlpha c₀ = true)
    (hs : ∀ c ∈ sch', isAlphaNumC c = true)
    (hlow : toLowerStr (c₀ :: sch') = c₀ :: sch')
    (hh : ∀ c ∈ h, hostChar c = true)
    (hh0 : h ≠ [])
    (hp : ∀ c ∈ p, isDigitC c = true)
    (hpn : p ≠ []) :
    urlParse ((c₀ :: sch') ++ ':' :: '/' :: '/' :: (h ++ ':' :: p)) =
      .ok { scheme := c₀ :: sch', host := h ++ ':' :: p } := by
  have hsch_char : ∀ c ∈ (c₀ :: sch'), isAlphaNumC c = true := by
    intro c hc
    rcases List.mem_cons.mp hc with rfl | hc
    · simp [isAlphaNumC, ha]
    · exact hs c hc
  have htail : ∀ c ∈ h ++ ':' :: p, hostChar c = true ∨ c = ':' := by
    intro c hc
    rcases List.mem_append.mp hc with h1 | h1
    · exact Or.inl (hh c h1)
    · rcases List.mem_cons.mp h1 with rfl | h1
      · exact Or.inr rfl
      · exact Or.inl (digit_hostChar (hp c h1))
  have hrest : ∀ c ∈ '/' :: '/' :: (h ++ ':' :: p),
      hostChar c = true ∨ c = ':' ∨ c = '/' := by
    intro c hc
    rcases List.mem_cons.mp hc with rfl | h1
    · exact Or.inr (Or.inr rfl)
    rcases List.mem_cons.mp h1 with rfl | h1
    · exact Or.inr (Or.inr rfl)
    rcases htail c h1 with h2 | h2
    · exact Or.inl h2
    · exact Or.inr (Or.inl h2)
  have hall : ∀ c ∈ (c₀ :: sch') ++ ':' :: '/' :: '/' :: (h ++ ':' :: p),
      hostChar c = true ∨ c = ':' ∨ c = '/' := by
    intro c hc
    rcases List.mem_append.mp hc with h1 | h1
    · exact Or.inl (alnum_hostChar (hsch_char c h1))
    · rcases List.mem_cons.mp h1 with rfl | h1
      · exact Or.inr (Or.inl rfl)
      · exact hrest c h1
  have hcut : strCut ((c₀ :: sch') ++ ':' :: '/' :: '/' :: (h ++ ':' :: p)) '#'
      = ((c₀ :: sch') ++ ':' :: '/' :: '/' :: (h ++ ':' :: p), [], false) := by
    apply strCut_not_mem
    intro c hc
    rcases hall c hc with hC | rfl | rfl
    · exact (hostChar_props hC).1
    · decide
    · decide
  have hctl : containsCTL ((c₀ :: sch') ++ ':' :: '/' :: '/' :: (h ++ ':' :: p))
      = false := by
    simp only [containsCTL, List.any_eq_false]
    intro c hc
    rcases hall c hc with hC | rfl | rfl
    · have h1 := (hostChar_props hC).2.2.2.2.2.2.2.2.1
      have h2 := (hostChar_props hC).2.2.2.2.2.2.2.2.2
      simp only [Bool.or_eq_true, decide_eq_true_eq, not_or]
      omega
    · decide
    · decide
  have hne_star : (c₀ :: sch') ++ ':' :: '/' :: '/' :: (h ++ ':' :: p) ≠ ['*'] := by
    intro hEq
    have h2 := congrArg List.length hEq
    simp only [List.length_append, List.length_cons, List.length_nil] at h2
    omega
  have hgs : getScheme ((c₀ :: sch') ++ ':' :: '/' :: '/' :: (h ++ ':' :: p))
      = .ok (c₀ :: sch', '/' :: '/' :: (h ++ ':' :: p)) := getScheme_eq ha hs
  have hlast : lastChar ('/' :: '/' :: (h ++ ':' :: p)) = lastChar p := by
    have he : '/' :: '/' :: (h ++ ':' :: p)
        = ('/' :: '/' :: (h ++ [':'])) ++ p := by simp
    rw [he, lastChar_append hpn]
  have hnq : ¬(lastChar ('/' :: '/' :: (h ++ ':' :: p)) = some '?' ∧
      strContains (List.dropLast ('/' :: '/' :: (h ++ ':' :: p))) '?' = false) := by
    obtain ⟨d, hd⟩ := lastChar_isSome hpn
    intro hAnd
    rw [hlast, hd] at hAnd
    have hdq : d = '?' := Option.some.inj hAnd.1
    subst hdq
    exact absurd (hp _ (lastChar_mem hd)) (by decide)
  have hq : strCut ('/' :: '/' :: (h ++ ':' :: p)) '?'
      = ('/' :: '/' :: (h ++ ':' :: p), [], false) := by
    apply strCut_not_mem
    intro c hc
    rcases hrest c hc with hC | rfl | rfl
    · exact (hostChar_props hC).2.1
    · decide
    · decide
  have hslash : strCut (h ++ ':' :: p) '/' = (h ++ ':' :: p, [], false) := by
    apply strCut_not_mem
    intro c hc
    rcases htail c hc with hC | rfl
    · exact (hostChar_props hC).2.2.1
    · decide
  have hat : lastSplit (h ++ ':' :: p) '@' = none := by
    apply lastSplit_not_mem
    intro c hc
    rcases htail c hc with hC | rfl
    · exact (hostChar_props hC).2.2.2.1
    · decide
  have hbr : startsWithS ['['] (h ++ ':' :: p) = false :=
    startsWithS_bracket_false hh0 hh
  have hcolon : lastSplit (h ++ ':' :: p) ':' = some (h, p) := by
    apply lastSplit_append
    intro c hc he
    subst he
    exact absurd (hp _ hc) (by decide)
  have hvp : validOptionalPort (':' :: p) = true := by
    simpa [validOptionalPort, List.all_eq_true] using hp
  have hclean : unescapeMode EncMode.host (h ++ ':' :: p)
      = .ok (h ++ ':' :: p) := by
    apply unescape_host_clean
    intro c hc
    rcases htail c hc with hC | rfl
    · exact ⟨(hostChar_props hC).2.2.2.2.2.2.1,
        (hostChar_props hC).2.2.2.2.2.2.2.1⟩
    · exact ⟨by decide, by decide⟩
  have hhost : parseHost (h ++ ':' :: p) = .ok (h ++ ':' :: p) := by
    rw [parseHost, if_neg]
    · rw [hcolon]
      simp [hvp, hclean]
    · simp [hbr]
  have hauth : parseAuthority (h ++ ':' :: p)
      = .ok (none, h ++ ':' :: p) := by
    rw [parseAuthority, hat, hhost]
  have hstart2 : startsWithS (str "//") ('/' :: '/' :: (h ++ ':' :: p)) = true := rfl
  have hstart1 : startsWithS ['/'] ('/' :: '/' :: (h ++ ':' :: p)) = true := rfl
  have hafter : parseAfter (c₀ :: sch') [] false false
      ('/' :: '/' :: (h ++ ':' :: p))
      = .ok { scheme := c₀ :: sch', host := h ++ ':' :: p } := by
    rw [parseAfter, if_pos]
    · simp only [List.drop, hslash, hauth]
      rfl
    · exact ⟨Or.inl (by simp), hstart2⟩
  have hparse : parseRaw ((c₀ :: sch') ++ ':' :: '/' :: '/' :: (h ++ ':' :: p)) false
      = .ok { scheme := c₀ :: sch', host := h ++ ':' :: p } := by
    rw [parseRaw, if_neg, if_neg, if_neg, hgs]
    · simp only []
      rw [hlow, if_neg hnq]
      simp only [hq]
      rw [if_neg]
      · exact hafter
      · simp [hstart1]
    · exact hne_star
    · simp
    · simp only [hctl]
      exact Bool.false_ne_true
  unfold urlParse
  rw [hcut]
  simp only [hparse]
  rfl

/-- Claim C2: for every proxy-URI string whose scheme is in
{http, https, socks, socks5, quic}, whose hostname (of hostname
characters) has length ≥ 4, and whose port is a decimal numeral with
value in [1,65535], `ParseProxyURI` succeeds, and the scheme, host, and
port of the returned URI equal exactly those written in the input
string. -/
theorem parseProxyURI_roundtrip (sch h p : Str) (v : Int)
    (hsch : sch ∈ proxySchemes)
    (hh : ∀ c ∈ h, hostChar c = true) (hlen : 4 ≤ h.length)
    (hp : ∀ c ∈ p, isDigitC c = true)
    (hv : atoi p = some v) (hv1 : 1 ≤ v) (hv2 : v ≤ 65535) :
    ∃ u, ParseProxyURI (sch ++ str "://" ++ h ++ ':' :: p) = .ok u ∧
      u.scheme = sch ∧ hostnameOf u = h ∧ portOf u = p := by
  have hh0 : h ≠ [] := by
    intro he; rw [he] at hlen; simp at hlen
  have hpn : p ≠ [] := atoi_ne_nil hv
  have hbrh : startsWithS ['['] h = false := by
    cases h with
    | nil => exact absurd rfl hh0
    | cons a as =>
      have hne : ('[' : Char) ≠ a :=
        Ne.symm (hostChar_props (hh a (by simp))).2.2.2.2.2.1
      simp [startsWithS, hne]
  have hhost : splitHostPort (h ++ ':' :: p) = (h, p) :=
    splitHostPort_hostport hbrh hp
  have key : ∀ (c₀ : Char) (sch' : Str),
      isAsciiAlpha c₀ = true → (∀ c ∈ sch', isAlphaNumC c = true) →
      toLowerStr (c₀ :: sch') = c₀ :: sch' →
      ¬(c₀ :: sch' ≠ str "http" ∧ c₀ :: sch' ≠ str "https" ∧
        c₀ :: sch' ≠ str "socks5" ∧ c₀ :: sch' ≠ str "socks" ∧
        c₀ :: sch' ≠ str "quic") →
      ∃ u, ParseProxyURI ((c₀ :: sch') ++ ':' :: '/' :: '/' :: (h ++ ':' :: p))
          = .ok u ∧
        u.scheme = c₀ :: sch' ∧ hostnameOf u = h ∧ portOf u = p := by
    intro c₀ sch' ha hs hlow hok
    have hparse := urlParse_proxy (h := h) (p := p) ha hs hlow hh hh0 hp hpn
    have hhn : hostnameOf
        { scheme := c₀ :: sch', host := h ++ ':' :: p } = h := by
      show (splitHostPort (h ++ ':' :: p)).1 = h
      rw [hhost]
    have hpo : portOf
        { scheme := c₀ :: sch', host := h ++ ':' :: p } = p := by
      show (splitHostPort (h ++ ':' :: p)).2 = p
      rw [hhost]
    have hval : validateProxyURI
        (some { scheme := c₀ :: sch', host := h ++ ':' :: p }) = none := by
      simp only [validateProxyURI]
      rw [if_neg hok, if_neg, if_neg, if_neg]
      · rfl
      · rw [hpo, isPort_of_atoi hv hv1 hv2]
        simp
      · rw [hpo]
        simp [hpn]
      · rw [hhn]
        simp only [minHostLength]
        omega
    refine ⟨{ scheme := c₀ :: sch', host := h ++ ':' :: p }, ?_, rfl, hhn, hpo⟩
    unfold ParseProxyURI
    rw [hparse]
    dsimp only
    rw [hval]
  have hsch' : sch = str "http" ∨ sch = str "https" ∨ sch = str "socks5" ∨
      sch = str "socks" ∨ sch = str "quic" := by
    simpa [proxySchemes] using hsch
  rcases hsch' with rfl | rfl | rfl | rfl | rfl
  · exact key 'h' (str "ttp") (by decide) (by decide) (by decide) (by decide)
  · exact key 'h' (str "ttps") (by decide) (by decide) (by decide) (by decide)
  · exact key 's' (str "ocks5") (by decide) (by decide) (by decide) (by decide)
  · exact key 's' (str "ocks") (by decide) (by decide) (by decide) (by decide)
  · exact key 'q' (str "uic") (by decide) (by decide) (by decide) (by decide)

theorem parseProxyURI_roundtrip_witness :
    ∃ u, ParseProxyURI (str "http" ++ str "://" ++ str "abcd" ++ ':' :: str "8080")
        = .ok u ∧
      u.scheme = str "http" ∧ hostnameOf u = str "abcd" ∧
      portOf u = str "8080" :=
  parseProxyURI_roundtrip (str "http") (str "abcd") (str "8080") 8080
    (by decide) (by decide) (by decide) (by decide) (by decide) (by decide)
    (by decide)

/-! ### Claim C7: deep-copy independence of ProxyConfig.Clone -/

theorem hGet_lt {H : Heap} {a : Nat} {c : Cell} (h : hGet H a = some c) :
    a < H.length := by
  induction H generalizing a with
  | nil => cases h
  | cons x xs ih =>
    cases a with
    | zero => simp
    | succ n => exact Nat.succ_lt_succ (ih h)

theorem hGet_append_left {H E : Heap} {a : Nat} (h : a < H.length) :
    hGet (H ++ E) a = hGet H a := by
  induction H generalizing a with
  | nil => cases h
  | cons x xs ih =>
    cases a with
    | zero => rfl
    | succ n => exact ih (Nat.lt_of_succ_lt_succ h)

theorem hGet_append_len {H : Heap} {c : Cell} :
    hGet (H ++ [c]) H.length = some c := by
  induction H with
  | nil => rfl
  | cons x xs ih => exact ih

theorem hGet_hSet_ne {H : Heap} {a b : Nat} {v : Cell} (h : a ≠ b) :
    hGet (hSet H a v) b = hGet H b := by
  induction H generalizing a b with
  | nil => rfl
  | cons x xs ih =>
    cases a with
    | zero =>
      cases b with
      | zero => exact absurd rfl h
      | succ m => rfl
    | succ n =>
      cases b with
      | zero => rfl
      | succ m => exact ih (fun he => h (by rw [he]))

/-- Inversion of a successful URL resolve. -/
theorem resolveURL_inv {H : Heap} {a : Nat} {r : RURL}
    (h : resolveURL H a = some r) :
    ∃ v w, getURLCell H a = some v ∧ resolveUser H v.user = some w ∧
      r = ⟨v.scheme, v.opq, w, v.host, v.path, v.omitHost, v.forceQuery,
           v.rawQuery, v.fragment⟩ := by
  unfold resolveURL at h
  cases hv : getURLCell H a with
  | none => rw [hv] at h; cases h
  | some v =>
    rw [hv] at h
    dsimp only at h
    cases hw : resolveUser H v.user with
    | none => rw [hw] at h; cases h
    | some w =>
      rw [hw] at h
      simp only [Option.map_some', Option.some.injEq] at h
      exact ⟨v, w, rfl, hw, h.symm⟩

theorem resolveUser_frame {G D : Heap} {o : Option Nat}
    (hag : ∀ b ∈ o.toList, hGet D b = hGet G b) :
    resolveUser D o = resolveUser G o := by
  cases o with
  | none => rfl
  | some a =>
    have := hag a (by simp)
    simp [resolveUser, getUICell, this]

theorem resolveUser_lt {H : Heap} {o : Option Nat} {w : Option UserinfoV}
    (h : resolveUser H o = some w) : ∀ b ∈ o.toList, b < H.length := by
  cases o with
  | none => simp
  | some a =>
    intro b hb
    simp at hb
    subst hb
    unfold resolveUser at h
    dsimp only at h
    cases hg : getUICell H b with
    | none => rw [hg] at h; cases h
    | some ui =>
      unfold getUICell at hg
      cases hc : hGet H b with
      | none => rw [hc] at hg; cases hg
      | some cell => exact hGet_lt hc

theorem resolveURL_frame {G D : Heap} {a : Nat}
    (hag : ∀ b ∈ urlAddrs G a, hGet D b = hGet G b) :
    resolveURL D a = resolveURL G a ∧ urlAddrs D a = urlAddrs G a := by
  have ha : hGet D a = hGet G a := hag a (by simp [urlAddrs])
  have hcell : getURLCell D a = getURLCell G a := by
    simp [getURLCell, ha]
  cases hv : getURLCell G a with
  | none =>
    constructor
    · simp [resolveURL, hcell, hv]
    · simp [urlAddrs, hcell, hv]
  | some v =>
    have huser : resolveUser D v.user = resolveUser G v.user := by
      apply resolveUser_frame
      intro b hb
      exact hag b (by simp [urlAddrs, hv, hb])
    constructor
    · simp [resolveURL, hcell, hv, huser]
    · simp [urlAddrs, hcell, hv]

theorem resolveURL_lt {H : Heap} {a : Nat} {r : RURL}
    (h : resolveURL H a = some r) : ∀ b ∈ urlAddrs H a, b < H.length := by
  obtain ⟨v, w, hv, hw, _⟩ := resolveURL_inv h
  intro b hb
  simp [urlAddrs, hv] at hb
  rcases hb with rfl | hb
  · unfold getURLCell at hv
    cases hc : hGet H b with
    | none => rw [hc] at hv; cases hv
    | some cell => exact hGet_lt hc
  · exact resolveUser_lt hw b (by simp [hb])

theorem resolveURL_mono {H H' : Heap} {a : Nat} {r : RURL}
    (h : resolveURL H a = some r)
    (hag : ∀ b, b < H.length → hGet H' b = hGet H b) :
    resolveURL H' a = some r ∧ urlAddrs H' a = urlAddrs H a := by
  have hf := resolveURL_frame
    (G := H) (D := H') (a := a)
    (fun b hb => hag b (resolveURL_lt h b hb))
  exact ⟨hf.1.trans h, hf.2⟩

theorem resolveURLList_frame {G D : Heap} {l : List Nat}
    (hag : ∀ b ∈ l.flatMap (urlAddrs G), hGet D b = hGet G b) :
    resolveURLList D l = resolveURLList G l ∧
    l.flatMap (urlAddrs D) = l.flatMap (urlAddrs G) := by
  induction l with
  | nil => exact ⟨rfl, rfl⟩
  | cons a as ih =>
    have h1 := resolveURL_frame (G := G) (D := D) (a := a)
      (fun b hb => hag b (by simp [hb]))
    have h2 := ih (fun b hb => hag b (by simp [hb]))
    constructor
    · simp [resolveURLList, h1.1, h2.1]
    · simp [h1.2, h2.2]

theorem resolveURLList_lt {H : Heap} {l : List Nat} {ws : List RURL}
    (h : resolveURLList H l = some ws) :
    ∀ b ∈ l.flatMap (urlAddrs H), b < H.length := by
  induction l generalizing ws with
  | nil => simp
  | cons a as ih =>
    unfold resolveURLList at h
    cases hr : resolveURL H a with
    | none => rw [hr] at h; cases h
    | some r =>
      rw [hr] at h
      cases hrs : resolveURLList H as with
      | none => rw [hrs] at h; cases h
      | some rs =>
        intro b hb
        simp at hb
        rcases hb with hb | hb
        · exact resolveURL_lt hr b hb
        · exact ih hrs b (by simpa using hb)

theorem resolveURLList_mono {H H' : Heap} {l : List Nat} {ws : List RURL}
    (h : resolveURLList H l = some ws)
    (hag : ∀ b, b < H.length → hGet H' b = hGet H b) :
    resolveURLList H' l = some ws ∧
    l.flatMap (urlAddrs H') = l.flatMap (urlAddrs H) := by
  have hf := resolveURLList_frame (G := H) (D := H') (l := l)
    (fun b hb => hag b (resolveURLList_lt h b hb))
  exact ⟨hf.1.trans h, hf.2⟩

theorem resolveStrs_frame {G D : Heap} {o : Option Nat}
    (hag : ∀ b ∈ strsAddrs o, hGet D b = hGet G b) :
    resolveStrs D o = resolveStrs G o := by
  cases o with
  | none => rfl
  | some a =>
    have := hag a (by simp [strsAddrs])
    simp [resolveStrs, getStrsCell, this]

theorem resolveStrs_lt {H : Heap} {o : Option Nat} {w : Option (List Str)}
    (h : resolveStrs H o = some w) : ∀ b ∈ strsAddrs o, b < H.length := by
  cases o with
  | none => simp [strsAddrs]
  | some a =>
    intro b hb
    simp [strsAddrs] at hb
    subst hb
    unfold resolveStrs at h
    dsimp only at h
    cases hg : getStrsCell H b with
    | none => rw [hg] at h; cases h
    | some v =>
      unfold getStrsCell at hg
      cases hc : hGet H b with
      | none => rw [hc] at hg; cases hg
      | some cell => exact hGet_lt hc

theorem resolveDNS_frame {G D : Heap} {o : Option Nat}
    (hag : ∀ b ∈ dnsAddrs G o, hGet D b = hGet G b) :
    resolveDNS D o = resolveDNS G o ∧ dnsAddrs D o = dnsAddrs G o := by
  cases o with
  | none => exact ⟨rfl, rfl⟩
  | some a =>
    have ha : hGet D a = hGet G a := hag a (by simp [dnsAddrs])
    have hcell : getPtrsCell D a = getPtrsCell G a := by
      simp [getPtrsCell, ha]
    cases hl : getPtrsCell G a with
    | none =>
      constructor
      · simp [resolveDNS, hcell, hl]
      · simp [dnsAddrs, hcell, hl]
    | some l =>
      have h2 := resolveURLList_frame (G := G) (D := D) (l := l)
        (fun b hb => hag b (by simp [dnsAddrs, hl]; exact Or.inr (by simpa using hb)))
      constructor
      · simp [resolveDNS, hcell, hl, h2.1]
      · simp [dnsAddrs, hcell, hl, h2.2]

theorem resolveDNS_lt {H : Heap} {o : Option Nat} {w : Option (List RURL)}
    (h : resolveDNS H o = some w) : ∀ b ∈ dnsAddrs H o, b < H.length := by
  cases o with
  | none => simp [dnsAddrs]
  | some a =>
    unfold resolveDNS at h
    dsimp only at h
    cases hg : getPtrsCell H a with
    | none => rw [hg] at h; cases h
    | some l =>
      rw [hg] at h
      dsimp only at h
      cases hws : resolveURLList H l with
      | none => rw [hws] at h; cases h
      | some ws =>
        intro b hb
        simp [dnsAddrs, hg] at hb
        rcases hb with rfl | hb
        · unfold getPtrsCell at hg
          cases hc : hGet H b with
          | none => rw [hc] at hg; cases hg
          | some cell => exact hGet_lt hc
        · exact resolveURLList_lt hws b (by simpa using hb)

theorem resolveOptURL_frame {G D : Heap} {o : Option Nat}
    (hag : ∀ b ∈ optURLAddrs G o, hGet D b = hGet G b) :
    resolveOptURL D o = resolveOptURL G o ∧
    optURLAddrs D o = optURLAddrs G o := by
  cases o with
  | none => exact ⟨rfl, rfl⟩
  | some a =>
    have h1 := resolveURL_frame (G := G) (D := D) (a := a)
      (fun b hb => hag b (by simpa [optURLAddrs] using hb))
    constructor
    · simp [resolveOptURL, h1.1]
    · simp [optURLAddrs, h1.2]

theorem resolveOptURL_lt {H : Heap} {o : Option Nat} {w : Option RURL}
    (h : resolveOptURL H o = some w) :
    ∀ b ∈ optURLAddrs H o, b < H.length := by
  cases o with
  | none => simp [optURLAddrs]
  | some a =>
    unfold resolveOptURL at h
    dsimp only at h
    cases hr : resolveURL H a with
    | none => rw [hr] at h; cases h
    | some r =>
      intro b hb
      exact resolveURL_lt hr b (by simpa [optURLAddrs] using hb)

theorem resolveConfig_inv {H : Heap} {c : ProxyConfigH} {r : RConfig}
    (h : resolveConfig H c = some r) :
    ∃ l up pac pcred dns site,
      resolveOptURL H c.localProxyURI = some l ∧
      resolveOptURL H c.upstreamProxyURI = some up ∧
      resolveOptURL H c.pacURI = some pac ∧
      resolveStrs H c.pacProxiesCredentials = some pcred ∧
      resolveDNS H c.dnsURIs = some dns ∧
      resolveStrs H c.siteCredentials = some site ∧
      r = ⟨l, up, pac, pcred, dns, c.proxyLocalhost, site⟩ := by
  unfold resolveConfig at h
  split at h
  · rename_i l up pac pcred dns site h1 h2 h3 h4 h5 h6
    exact ⟨l, up, pac, pcred, dns, site, h1, h2, h3, h4, h5, h6,
      (Option.some.inj h).symm⟩
  · cases h

theorem resolveConfig_frame {G D : Heap} {c : ProxyConfigH}
    (hag : ∀ b ∈ configAddrs G c, hGet D b = hGet G b) :
    resolveConfig D c = resolveConfig G c ∧
    configAddrs D c = configAddrs G c := by
  have h1 := resolveOptURL_frame (G := G) (D := D) (o := c.localProxyURI)
    (fun b hb => hag b (by simp [configAddrs, List.mem_append]; tauto))
  have h2 := resolveOptURL_frame (G := G) (D := D) (o := c.upstreamProxyURI)
    (fun b hb => hag b (by simp [configAddrs, List.mem_append]; tauto))
  have h3 := resolveOptURL_frame (G := G) (D := D) (o := c.pacURI)
    (fun b hb => hag b (by simp [configAddrs, List.mem_append]; tauto))
  have h4 := resolveStrs_frame (G := G) (D := D) (o := c.pacProxiesCredentials)
    (fun b hb => hag b (by simp [configAddrs, List.mem_append]; tauto))
  have h5 := resolveDNS_frame (G := G) (D := D) (o := c.dnsURIs)
    (fun b hb => hag b (by simp [configAddrs, List.mem_append]; tauto))
  have h6 := resolveStrs_frame (G := G) (D := D) (o := c.siteCredentials)
    (fun b hb => hag b (by simp [configAddrs, List.mem_append]; tauto))
  constructor
  · unfold resolveConfig
    rw [h1.1, h2.1, h3.1, h4, h5.1, h6]
  · unfold configAddrs
    rw [h1.2, h2.2, h3.2, h5.2]

theorem resolveConfig_lt {H : Heap} {c : ProxyConfigH} {r : RConfig}
    (h : resolveConfig H c = some r) :
    ∀ b ∈ configAddrs H c, b < H.length := by
  obtain ⟨l, up, pac, pcred, dns, site, h1, h2, h3, h4, h5, h6, _⟩ :=
    resolveConfig_inv h
  intro b hb
  simp only [configAddrs, List.mem_append] at hb
  rcases hb with ((((hb | hb) | hb) | hb) | hb) | hb
  · exact resolveOptURL_lt h1 b hb
  · exact resolveOptURL_lt h2 b hb
  · exact resolveOptURL_lt h3 b hb
  · exact resolveStrs_lt h4 b hb
  · exact resolveDNS_lt h5 b hb
  · exact resolveStrs_lt h6 b hb

theorem resolveConfig_mono {H H' : Heap} {c : ProxyConfigH} {r : RConfig}
    (h : resolveConfig H c = some r)
    (hag : ∀ b, b < H.length → hGet H' b = hGet H b) :
    resolveConfig H' c = some r ∧ configAddrs H' c = configAddrs H c := by
  have hf := resolveConfig_frame (G := H) (D := H') (c := c)
    (fun b hb => hag b (resolveConfig_lt h b hb))
  exact ⟨hf.1.trans h, hf.2⟩

theorem copyUser_spec {H : Heap} {o : Option Nat} {w : Option UserinfoV}
    (h : resolveUser H o = some w) :
    (∀ b, b < H.length → hGet (copyUser H o).1 b = hGet H b) ∧
    H.length ≤ (copyUser H o).1.length ∧
    (∀ b ∈ (copyUser H o).2.toList,
      H.length ≤ b ∧ b < (copyUser H o).1.length) ∧
    resolveUser (copyUser H o).1 (copyUser H o).2 = some w := by
  cases o with
  | none =>
    refine ⟨fun b _ => rfl, le_refl _, by simp [copyUser], ?_⟩
    simpa [copyUser] using h
  | some a =>
    unfold resolveUser at h
    dsimp only at h
    cases hg : getUICell H a with
    | none => rw [hg] at h; cases h
    | some ui =>
      rw [hg] at h
      simp only [Option.map_some', Option.some.injEq] at h
      have hc : copyUser H (some a) = (H ++ [Cell.ui ui], some H.length) := by
        simp [copyUser, hAlloc, hg]
      rw [hc]
      refine ⟨fun b hb => hGet_append_left hb, by simp, ?_, ?_⟩
      · intro b hb
        simp at hb
        subst hb
        simp
      · rw [← h]
        simp [resolveUser, getUICell, hGet_append_len]

theorem copyURL_spec {H : Heap} {a : Nat} {r : RURL}
    (h : resolveURL H a = some r) :
    (∀ b, b < H.length → hGet (copyURL H a).1 b = hGet H b) ∧
    H.length ≤ (copyURL H a).1.length ∧
    (∀ b ∈ urlAddrs (copyURL H a).1 (copyURL H a).2,
      H.length ≤ b ∧ b < (copyURL H a).1.length) ∧
    resolveURL (copyURL H a).1 (copyURL H a).2 = some r := by
  obtain ⟨v, w, hv, hw, hr⟩ := resolveURL_inv h
  obtain ⟨hu1, hu2, hu3, hu4⟩ := copyUser_spec hw
  have hcopy : copyURL H a =
      ((copyUser H v.user).1 ++ [Cell.url { v with user := (copyUser H v.user).2 }],
       (copyUser H v.user).1.length) := by
    simp [copyURL, hAlloc, hv]
  have hulen := resolveUser_lt hu4
  have hcell : getURLCell
      ((copyUser H v.user).1 ++ [Cell.url { v with user := (copyUser H v.user).2 }])
      (copyUser H v.user).1.length
      = some { v with user := (copyUser H v.user).2 } := by
    simp [getURLCell, hGet_append_len]
  have huser2 : resolveUser
      ((copyUser H v.user).1 ++ [Cell.url { v with user := (copyUser H v.user).2 }])
      (copyUser H v.user).2 = some w := by
    rw [resolveUser_frame (G := (copyUser H v.user).1)
      (fun b hb => hGet_append_left (hulen b hb))]
    exact hu4
  rw [hcopy]
  refine ⟨?_, ?_, ?_, ?_⟩
  · intro b hb
    rw [hGet_append_left (lt_of_lt_of_le hb hu2)]
    exact hu1 b hb
  · simp
    omega
  · intro b hb
    simp only [urlAddrs, hcell] at hb
    rcases List.mem_cons.mp hb with rfl | hb
    · constructor
      · exact hu2
      · simp
    · have := hu3 b hb
      constructor
      · exact this.1
      · simp
        omega
  · unfold resolveURL
    rw [hcell]
    dsimp only
    rw [huser2]
    simp [hr]

theorem copyOptURL_spec {H : Heap} {o : Option Nat} {w : Option RURL}
    (h : resolveOptURL H o = some w) :
    (∀ b, b < H.length → hGet (copyOptURL H o).1 b = hGet H b) ∧
    H.length ≤ (copyOptURL H o).1.length ∧
    (∀ b ∈ optURLAddrs (copyOptURL H o).1 (copyOptURL H o).2,
      H.length ≤ b ∧ b < (copyOptURL H o).1.length) ∧
    resolveOptURL (copyOptURL H o).1 (copyOptURL H o).2 = some w := by
  cases o with
  | none =>
    refine ⟨fun b _ => rfl, le_refl _, by simp [copyOptURL, optURLAddrs], ?_⟩
    simpa [copyOptURL] using h
  | some a =>
    unfold resolveOptURL at h
    dsimp only at h
    cases hr : resolveURL H a with
    | none => rw [hr] at h; cases h
    | some r =>
      rw [hr] at h
      simp only [Option.map_some', Option.some.injEq] at h
      obtain ⟨h1, h2, h3, h4⟩ := copyURL_spec hr
      have hc : copyOptURL H (some a) = ((copyURL H a).1, some (copyURL H a).2) := by
        simp [copyOptURL]
      rw [hc]
      refine ⟨h1, h2, ?_, ?_⟩
      · intro b hb
        exact h3 b (by simpa [optURLAddrs] using hb)
      · rw [← h]
        simp [resolveOptURL, h4]

theorem copyStrs_spec {H : Heap} {o : Option Nat} {w : Option (List Str)}
    (h : resolveStrs H o = some w) :
    (∀ b, b < H.length → hGet (copyStrs H o).1 b = hGet H b) ∧
    H.length ≤ (copyStrs H o).1.length ∧
    (∀ b ∈ strsAddrs (copyStrs H o).2,
      H.length ≤ b ∧ b < (copyStrs H o).1.length) ∧
    resolveStrs (copyStrs H o).1 (copyStrs H o).2 = some w := by
  cases o with
  | none =>
    refine ⟨fun b _ => rfl, le_refl _, by simp [copyStrs, strsAddrs], ?_⟩
    simpa [copyStrs] using h
  | some a =>
    unfold resolveStrs at h
    dsimp only at h
    cases hg : getStrsCell H a with
    | none => rw [hg] at h; cases h
    | some v =>
      rw [hg] at h
      simp only [Option.map_some', Option.some.injEq] at h
      have hc : copyStrs H (some a) = (H ++ [Cell.strs v], some H.length) := by
        simp [copyStrs, hAlloc, hg]
      rw [hc]
      refine ⟨fun b hb => hGet_append_left hb, by simp, ?_, ?_⟩
      · intro b hb
        simp [strsAddrs] at hb
        subst hb
        simp
      · rw [← h]
        simp [resolveStrs, getStrsCell, hGet_append_len]

theorem copyURLList_spec {H : Heap} {l : List Nat} {ws : List RURL}
    (h : resolveURLList H l = some ws) :
    (∀ b, b < H.length → hGet (copyURLList H l).1 b = hGet H b) ∧
    H.length ≤ (copyURLList H l).1.length ∧
    (∀ b ∈ (copyURLList H l).2.flatMap (urlAddrs (copyURLList H l).1),
      H.length ≤ b ∧ b < (copyURLList H l).1.length) ∧
    resolveURLList (copyURLList H l).1 (copyURLList H l).2 = some ws := by
  induction l generalizing H ws with
  | nil =>
    cases h
    exact ⟨fun b _ => rfl, le_refl _, by simp [copyURLList], rfl⟩
  | cons a as ih =>
    unfold resolveURLList at h
    cases hr : resolveURL H a with
    | none => rw [hr] at h; cases h
    | some r =>
      rw [hr] at h
      cases hrs : resolveURLList H as with
      | none => rw [hrs] at h; cases h
      | some rs =>
        rw [hrs] at h
        simp only [Option.some.injEq] at h
        obtain ⟨h1, h2, h3, h4⟩ := copyURL_spec hr
        have hrs2 : resolveURLList (copyURL H a).1 as = some rs :=
          (resolveURLList_mono hrs h1).1
        obtain ⟨g1, g2, g3, g4⟩ := ih hrs2
        have hc : copyURLList H (a :: as) =
            ((copyURLList (copyURL H a).1 as).1,
             (copyURL H a).2 :: (copyURLList (copyURL H a).1 as).2) := by
          simp [copyURLList]
        rw [hc]
        have hhead := resolveURL_mono h4
          (fun b hb => g1 b hb)
        have hheadaddr := hhead.2
        refine ⟨?_, le_trans h2 g2, ?_, ?_⟩
        · intro b hb
          rw [g1 b (lt_of_lt_of_le hb h2)]
          exact h1 b hb
        · intro b hb
          simp only [List.flatMap_cons, List.mem_append] at hb
          rcases hb with hb | hb
          · rw [hheadaddr] at hb
            have := h3 b hb
            exact ⟨this.1, lt_of_lt_of_le this.2 g2⟩
          · have := g3 b hb
            exact ⟨le_trans h2 this.1, this.2⟩
        · unfold resolveURLList
          rw [hhead.1, g4, ← h]

theorem resolveOptURL_mono {H H' : Heap} {o : Option Nat} {w : Option RURL}
    (h : resolveOptURL H o = some w)
    (hag : ∀ b, b < H.length → hGet H' b = hGet H b) :
    resolveOptURL H' o = some w ∧ optURLAddrs H' o = optURLAddrs H o := by
  have hf := resolveOptURL_frame (G := H) (D := H') (o := o)
    (fun b hb => hag b (resolveOptURL_lt h b hb))
  exact ⟨hf.1.trans h, hf.2⟩

theorem resolveStrs_mono {H H' : Heap} {o : Option Nat} {w : Option (List Str)}
    (h : resolveStrs H o = some w)
    (hag : ∀ b, b < H.length → hGet H' b = hGet H b) :
    resolveStrs H' o = some w := by
  have hf := resolveStrs_frame (G := H) (D := H') (o := o)
    (fun b hb => hag b (resolveStrs_lt h b hb))
  exact hf.trans h

theorem resolveDNS_mono {H H' : Heap} {o : Option Nat} {w : Option (List RURL)}
    (h : resolveDNS H o = some w)
    (hag : ∀ b, b < H.length → hGet H' b = hGet H b) :
    resolveDNS H' o = some w ∧ dnsAddrs H' o = dnsAddrs H o := by
  have hf := resolveDNS_frame (G := H) (D := H') (o := o)
    (fun b hb => hag b (resolveDNS_lt h b hb))
  exact ⟨hf.1.trans h, hf.2⟩

theorem copyDNS_spec {H : Heap} {o : Option Nat} {w : Option (List RURL)}
    (h : resolveDNS H o = some w) :
    (∀ b, b < H.length → hGet (copyDNS H o).1 b = hGet H b) ∧
    H.length ≤ (copyDNS H o).1.length ∧
    (∀ b ∈ dnsAddrs (copyDNS H o).1 (copyDNS H o).2,
      H.length ≤ b ∧ b < (copyDNS H o).1.length) ∧
    resolveDNS (copyDNS H o).1 (copyDNS H o).2 = some w := by
  cases o with
  | none =>
    refine ⟨fun b _ => rfl, le_refl _, by simp [copyDNS, dnsAddrs], ?_⟩
    simpa [copyDNS] using h
  | some a =>
    unfold resolveDNS at h
    dsimp only at h
    cases hg : getPtrsCell H a with
    | none => rw [hg] at h; cases h
    | some l =>
      rw [hg] at h
      dsimp only at h
      cases hws : resolveURLList H l with
      | none => rw [hws] at h; cases h
      | some ws =>
        rw [hws] at h
        simp only [Option.map_some', Option.some.injEq] at h
        obtain ⟨g1, g2, g3, g4⟩ := copyURLList_spec hws
        have hc : copyDNS H (some a) =
            ((copyURLList H l).1 ++ [Cell.urlPtrs (copyURLList H l).2],
             some (copyURLList H l).1.length) := by
          simp [copyDNS, hAlloc, hg]
        have hlt := resolveURLList_lt g4
        have hcell : getPtrsCell
            ((copyURLList H l).1 ++ [Cell.urlPtrs (copyURLList H l).2])
            (copyURLList H l).1.length = some (copyURLList H l).2 := by
          simp [getPtrsCell, hGet_append_len]
        have hws2 := resolveURLList_mono g4
          (fun b hb => hGet_append_left (H := (copyURLList H l).1)
            (E := [Cell.urlPtrs (copyURLList H l).2]) hb)
        rw [hc]
        refine ⟨?_, ?_, ?_, ?_⟩
        · intro b hb
          rw [hGet_append_left (lt_of_lt_of_le hb g2)]
          exact g1 b hb
        · simp
          omega
        · intro b hb
          simp only [dnsAddrs, hcell, Option.getD_some, List.mem_cons] at hb
          rcases hb with rfl | hb
          · exact ⟨g2, by simp⟩
          · rw [hws2.2] at hb
            have := g3 b hb
            exact ⟨this.1, by simp; omega⟩
        · unfold resolveDNS
          dsimp only
          rw [hcell]
          dsimp only
          rw [hws2.1, ← h]
          rfl

/-- Claim C7 (spec-modelled: `deepCopy`, called by `ProxyConfig.Clone`, is
not in the provided sources; it is modelled from the spec as a full
independent deep copy).  `Clone` produces a fully independent deep copy:
the clone reads equal to the source; cloning does not disturb the source;
every heap cell reachable from the clone is fresh (allocated at or beyond
the old heap bound); mutating any cell reachable from the clone leaves
every read through the source unchanged; and mutating any cell reachable
from the source leaves every read through the clone unchanged. -/
theorem proxyConfig_clone_spec (H : Heap) (c : ProxyConfigH) (r : RConfig)
    (hres : resolveConfig H c = some r) :
    resolveConfig (deepCopyConfig H c).1 (deepCopyConfig H c).2 = some r ∧
    resolveConfig (deepCopyConfig H c).1 c = some r ∧
    (∀ b ∈ configAddrs (deepCopyConfig H c).1 (deepCopyConfig H c).2,
      H.length ≤ b) ∧
    (∀ a v, a ∈ configAddrs (deepCopyConfig H c).1 (deepCopyConfig H c).2 →
      resolveConfig (hSet (deepCopyConfig H c).1 a v) c = some r) ∧
    (∀ a v, a ∈ configAddrs (deepCopyConfig H c).1 c →
      resolveConfig (hSet (deepCopyConfig H c).1 a v) (deepCopyConfig H c).2
        = some r) := by
  obtain ⟨l, up, pac, pcred, dns, site, e1, e2, e3, e4, e5, e6, hr⟩ :=
    resolveConfig_inv hres
  obtain ⟨a1, b1, c1, d1⟩ := copyOptURL_spec e1
  set K1 := copyOptURL H c.localProxyURI with hK1
  have e2a : resolveOptURL K1.1 c.upstreamProxyURI = some up :=
    (resolveOptURL_mono e2 a1).1
  obtain ⟨a2, b2, c2, d2⟩ := copyOptURL_spec e2a
  set K2 := copyOptURL K1.1 c.upstreamProxyURI with hK2
  have e3a : resolveOptURL K2.1 c.pacURI = some pac :=
    (resolveOptURL_mono (resolveOptURL_mono e3 a1).1 a2).1
  obtain ⟨a3, b3, c3, d3⟩ := copyOptURL_spec e3a
  set K3 := copyOptURL K2.1 c.pacURI with hK3
  have e4a : resolveStrs K3.1 c.pacProxiesCredentials = some pcred :=
    resolveStrs_mono (resolveStrs_mono (resolveStrs_mono e4 a1) a2) a3
  obtain ⟨a4, b4, c4, d4⟩ := copyStrs_spec e4a
  set K4 := copyStrs K3.1 c.pacProxiesCredentials with hK4
  have e5a : resolveDNS K4.1 c.dnsURIs = some dns :=
    (resolveDNS_mono (resolveDNS_mono (resolveDNS_mono
      (resolveDNS_mono e5 a1).1 a2).1 a3).1 a4).1
  obtain ⟨a5, b5, c5, d5⟩ := copyDNS_spec e5a
  set K5 := copyDNS K4.1 c.dnsURIs with hK5
  have e6a : resolveStrs K5.1 c.siteCredentials = some site :=
    resolveStrs_mono (resolveStrs_mono (resolveStrs_mono (resolveStrs_mono
      (resolveStrs_mono e6 a1) a2) a3) a4) a5
  obtain ⟨a6, b6, c6, d6⟩ := copyStrs_spec e6a
  set K6 := copyStrs K5.1 c.siteCredentials with hK6
  have hfinal : deepCopyConfig H c = (K6.1,
      { localProxyURI := K1.2, upstreamProxyURI := K2.2, pacURI := K3.2,
        pacProxiesCredentials := K4.2, dnsURIs := K5.2,
        proxyLocalhost := c.proxyLocalhost, siteCredentials := K6.2 }) := by
    rw [hK6, hK5, hK4, hK3, hK2, hK1]
    rfl
  rw [hfinal]
  dsimp only
  have P : ∀ b, b < H.length → hGet K6.1 b = hGet H b := by
    intro b hb
    have l1 : b < K1.1.length := lt_of_lt_of_le hb b1
    have l2 : b < K2.1.length := lt_of_lt_of_le l1 b2
    have l3 : b < K3.1.length := lt_of_lt_of_le l2 b3
    have l4 : b < K4.1.length := lt_of_lt_of_le l3 b4
    have l5 : b < K5.1.length := lt_of_lt_of_le l4 b5
    rw [a6 b l5, a5 b l4, a4 b l3, a3 b l2, a2 b l1, a1 b hb]
  have t1 : resolveOptURL K6.1 K1.2 = some l ∧
      optURLAddrs K6.1 K1.2 = optURLAddrs K1.1 K1.2 := by
    have s2 := resolveOptURL_mono d1 a2
    have s3 := resolveOptURL_mono s2.1 a3
    have s4 := resolveOptURL_mono s3.1 a4
    have s5 := resolveOptURL_mono s4.1 a5
    have s6 := resolveOptURL_mono s5.1 a6
    exact ⟨s6.1, by rw [s6.2, s5.2, s4.2, s3.2, s2.2]⟩
  have t2 : resolveOptURL K6.1 K2.2 = some up ∧
      optURLAddrs K6.1 K2.2 = optURLAddrs K2.1 K2.2 := by
    have s3 := resolveOptURL_mono d2 a3
    have s4 := resolveOptURL_mono s3.1 a4
    have s5 := resolveOptURL_mono s4.1 a5
    have s6 := resolveOptURL_mono s5.1 a6
    exact ⟨s6.1, by rw [s6.2, s5.2, s4.2, s3.2]⟩
  have t3 : resolveOptURL K6.1 K3.2 = some pac ∧
      optURLAddrs K6.1 K3.2 = optURLAddrs K3.1 K3.2 := by
    have s4 := resolveOptURL_mono d3 a4
    have s5 := resolveOptURL_mono s4.1 a5
    have s6 := resolveOptURL_mono s5.1 a6
    exact ⟨s6.1, by rw [s6.2, s5.2, s4.2]⟩
  have t4 : resolveStrs K6.1 K4.2 = some pcred :=
    resolveStrs_mono (resolveStrs_mono d4 a5) a6
  have t5 : resolveDNS K6.1 K5.2 = some dns ∧
      dnsAddrs K6.1 K5.2 = dnsAddrs K5.1 K5.2 :=
    resolveDNS_mono d5 a6
  have hclone : resolveConfig K6.1
      { localProxyURI := K1.2, upstreamProxyURI := K2.2, pacURI := K3.2,
        pacProxiesCredentials := K4.2, dnsURIs := K5.2,
        proxyLocalhost := c.proxyLocalhost, siteCredentials := K6.2 }
      = some r := by
    unfold resolveConfig
    dsimp only
    rw [t1.1, t2.1, t3.1, t4, t5.1, d6, hr]
  have hsrc := resolveConfig_mono hres P
  have hbounds : ∀ b ∈ configAddrs K6.1
      { localProxyURI := K1.2, upstreamProxyURI := K2.2, pacURI := K3.2,
        pacProxiesCredentials := K4.2, dnsURIs := K5.2,
        proxyLocalhost := c.proxyLocalhost, siteCredentials := K6.2 },
      H.length ≤ b := by
    intro b hb
    simp only [configAddrs, List.mem_append] at hb
    rcases hb with ((((hb | hb) | hb) | hb) | hb) | hb
    · rw [t1.2] at hb
      exact (c1 b hb).1
    · rw [t2.2] at hb
      exact le_trans b1 (c2 b hb).1
    · rw [t3.2] at hb
      exact le_trans (le_trans b1 b2) (c3 b hb).1
    · exact le_trans (le_trans (le_trans b1 b2) b3) (c4 b hb).1
    · rw [t5.2] at hb
      exact le_trans (le_trans (le_trans (le_trans b1 b2) b3) b4) (c5 b hb).1
    · exact le_trans (le_trans (le_trans (le_trans (le_trans b1 b2) b3) b4) b5)
        (c6 b hb).1
  refine ⟨hclone, hsrc.1, hbounds, ?_, ?_⟩
  · intro a v ha
    have haH : H.length ≤ a := hbounds a ha
    have hagree : ∀ b ∈ configAddrs K6.1 c,
        hGet (hSet K6.1 a v) b = hGet K6.1 b := by
      intro b hb
      rw [hsrc.2] at hb
      have hbH : b < H.length := resolveConfig_lt hres b hb
      exact hGet_hSet_ne (by omega)
    exact (resolveConfig_frame hagree).1.trans hsrc.1
  · intro a v ha
    have haH : a < H.length := by
      rw [hsrc.2] at ha
      exact resolveConfig_lt hres a ha
    have hagree : ∀ b ∈ configAddrs K6.1
        { localProxyURI := K1.2, upstreamProxyURI := K2.2, pacURI := K3.2,
          pacProxiesCredentials := K4.2, dnsURIs := K5.2,
          proxyLocalhost := c.proxyLocalhost, siteCredentials := K6.2 },
        hGet (hSet K6.1 a v) b = hGet K6.1 b := by
      intro b hb
      have := hbounds b hb
      exact hGet_hSet_ne (by omega)
    exact (resolveConfig_frame hagree).1.trans hclone

theorem proxyConfig_clone_spec_witness :
    resolveConfig
      (hSet
        (deepCopyConfig
          [Cell.url { scheme := str "s", host := str "h" }, Cell.strs [],
           Cell.urlPtrs [], Cell.strs []]
          { localProxyURI := some 0, pacProxiesCredentials := some 1,
            dnsURIs := some 2, siteCredentials := some 3 }).1
        4 (Cell.url { scheme := str "mutated" }))
      { localProxyURI := some 0, pacProxiesCredentials := some 1,
        dnsURIs := some 2, siteCredentials := some 3 } =
    some ⟨some ⟨str "s", [], none, str "h", [], false, false, [], []⟩,
          none, none, some [], some [], false, some []⟩ :=
  (proxyConfig_clone_spec
    [Cell.url { scheme := str "s", host := str "h" }, Cell.strs [],
     Cell.urlPtrs [], Cell.strs []]
    { localProxyURI := some 0, pacProxiesCredentials := some 1,
      dnsURIs := some 2, siteCredentials := some 3 }
    ⟨some ⟨str "s", [], none, str "h", [], false, false, [], []⟩,
     none, none, some [], some [], false, some []⟩
    (by decide)).2.2.2.1 4 (Cell.url { scheme := str "mutated" }) (by decide)
